import Mathlib

/-!
Shallow embedding of the BadgerDB B+ tree index (`src/Btree/src/btree.cpp`)
and verification of its natural-language specification.

Modelling conventions:
* C++ `int` values (keys, occupancies, loop indices) are `Int`; page ids
  (`PageId`, a `uint32_t`) are `Int` with page id `0` the reserved
  "no page" sentinel, matching the source's use.
* On-page arrays (`keyArray`, `ridArray`, `pageNoArray`) are fixed-length
  `List`s.  Reads through `arrGet` return `0`/the zero record id for an
  out-of-range index, and writes through `arrSet` to an out-of-range index
  leave the array unchanged: the C++ behaviour there is an out-of-bounds
  access into adjacent page memory (undefined behaviour), which a
  non-aliasing array model cannot represent, so it is modelled as a
  default-read / dropped-write and noted at each use site.
* The buffer pool is modelled by the page map `pages` together with a pin
  counter per page id; `readPage`/`allocPage` increment the pin count and
  `unPinPage` decrements it, recording in `badUnpin` whether a page was
  ever unpinned while its pin count was not positive (a double unpin).
  Mutations made through a pinned page pointer are reflected in the page
  map at the point the node's final value is known (`writePage`), which is
  observationally equivalent in this single-threaded setting.
* The metadata page (page 1) is modelled by the dedicated state field
  `headerRootPageNo` rather than as an entry of the page map.
* The two C++ while-loops of `startScan` and the recursion of
  `insertHelper` are given a fuel parameter; `none` means the fuel was
  exhausted, i.e. the source loops/recurses at least that many times.
-/

set_option maxRecDepth 8000

namespace BadgerBTree

/-- Record identifier, a (page, slot) pair referencing the heap relation;
`page_number = 0` is the free-slot sentinel used by the leaf occupancy
check. -/
structure RecordId where
  page_number : Int
  slot_number : Int
deriving DecidableEq, Repr

/-- Scan comparison operators of the index (the C++ `Operator` enum). -/
inductive Operator where
  | LT
  | LTE
  | GTE
  | GT
deriving DecidableEq, Repr

/-- Error kinds raised by the index operations (the exception classes of
badgerdb). -/
inductive IndexError where
  | badIndexInfo
  | badOpcodes
  | badScanrange
  | noSuchKeyFound
  | scanNotInitialized
  | indexScanCompleted
deriving DecidableEq, Repr

/-- Leaf node layout (`struct LeafNodeInt`): keys, positionally aligned
record ids, the right-sibling page id and the `level` tag (1 on leaves). -/
structure LeafNodeInt where
  level : Int
  keyArray : List Int
  ridArray : List RecordId
  rightSibPageNo : Int
deriving DecidableEq, Repr

/-- Internal node layout (`struct NonLeafNodeInt`): `level` tag (0 on
internals), N keys and N+1 child page ids. -/
structure NonLeafNodeInt where
  level : Int
  keyArray : List Int
  pageNoArray : List Int
deriving DecidableEq, Repr

/-- A page interpreted as a node.  The source discriminates leaves from
internals by the `level` field (leaves always carry `level = 1`, internals
`level = 0`), which this tagged representation mirrors. -/
inductive Node where
  | leaf (l : LeafNodeInt)
  | nonleaf (n : NonLeafNodeInt)
deriving DecidableEq, Repr

/-- The `RIDKeyPair` of the source: a record id together with its key. -/
structure RIDKeyPair where
  rid : RecordId
  key : Int
deriving DecidableEq, Repr

/-- The `PageKeyPair` of the source: a page id together with a separator
key, as propagated upward by splits. -/
structure PageKeyPair where
  pageNo : Int
  key : Int
deriving DecidableEq, Repr

/-- Contents of the metadata page (`struct IndexMetaInfo`). -/
structure IndexMetaInfo where
  relationName : String
  attrByteOffset : Int
  attrType : Int
  rootPageNo : Int
deriving DecidableEq, Repr

/-- Array read at an `Int` index with a default for out-of-range
(including negative) indices; in-range reads match the C++ array read. -/
def arrGet {α : Type} (d : α) (l : List α) (i : Int) : α :=
  if 0 ≤ i then l.getD i.toNat d else d

/-- Array write at an `Int` index; out-of-range (including negative)
writes leave the list unchanged (see the module comment on the modelling
of out-of-bounds accesses). -/
def arrSet {α : Type} (l : List α) (i : Int) (v : α) : List α :=
  if 0 ≤ i then l.set i.toNat v else l

/-- Association-list lookup keyed by page id. -/
def alookup {α : Type} (l : List (Int × α)) (k : Int) : Option α :=
  (l.find? (fun p => p.1 == k)).map Prod.snd

/-- Association-list update/insert keyed by page id. -/
def aset {α : Type} (l : List (Int × α)) (k : Int) (v : α) : List (Int × α) :=
  match l with
  | [] => [(k, v)]
  | (k', v') :: t => if k' = k then (k, v) :: t else (k', v') :: aset t k v

/-- The zero record id (contents of a freshly allocated, zero-filled slot). -/
def rid0 : RecordId := ⟨0, 0⟩

/-- In-memory state of a `BTreeIndex` object together with its file and
buffer pool: the page map, the allocation counter, the index fields of the
class, and the pin counters of the buffer pool. -/
structure BTreeState where
  pages : List (Int × Node)
  nextPid : Int
  headerPageNum : Int
  rootPageNum : Int
  headerRootPageNo : Int
  pins : List (Int × Int)
  badUnpin : Bool
  attributeType : Int
  attrByteOffset : Int
  leafOccupancy : Int
  nodeOccupancy : Int
  scanExecuting : Bool
  nextEntry : Int
  currentPageNum : Int
  lowValInt : Int
  highValInt : Int
  lowOp : Operator
  highOp : Operator
deriving DecidableEq, Repr

/-- Result of an operation that may raise: the post state together with
either a value or the raised error (C++ exceptions leave the object in
its mutated state, which the embedding keeps). -/
inductive OpResult (α : Type) where
  | ok (st : BTreeState) (val : α)
  | err (st : BTreeState) (e : IndexError)
deriving DecidableEq, Repr

/-- Post state of an operation result. -/
def OpResult.stateOf {α : Type} : OpResult α → BTreeState
  | .ok st _ => st
  | .err st _ => st

/-- Raised error of an operation result, if any. -/
def OpResult.errorOf {α : Type} : OpResult α → Option IndexError
  | .ok _ _ => none
  | .err _ e => some e

/-- Returned value of an operation result, if any. -/
def OpResult.valueOf {α : Type} : OpResult α → Option α
  | .ok _ v => some v
  | .err _ _ => none

/-- Current pin count of a page (0 when the page was never pinned). -/
def pinCountOf (st : BTreeState) (p : Int) : Int :=
  (alookup st.pins p).getD 0

/-- `bufMgr->readPage` / the pin half of `allocPage`: increments the pin
count of the page. -/
def pinPage (st : BTreeState) (p : Int) : BTreeState :=
  { st with pins := aset st.pins p (pinCountOf st p + 1) }

/-- `bufMgr->unPinPage`: decrements the pin count; unpinning a page whose
count is not positive is the double-unpin fault and sets `badUnpin`. -/
def unPinPage (st : BTreeState) (p : Int) : BTreeState :=
  { st with pins := aset st.pins p (pinCountOf st p - 1),
            badUnpin := st.badUnpin || decide (pinCountOf st p ≤ 0) }

/-- Record the final contents of a (pinned, mutated) page in the page map. -/
def writePage (st : BTreeState) (p : Int) (n : Node) : BTreeState :=
  { st with pages := aset st.pages p n }

/-- `bufMgr->allocPage`: reserves the next page id (ids are handed out
sequentially starting from 1, page id 0 is never allocated) and pins it;
the caller reads the fresh id from `nextPid` before the call. -/
def allocPagePin (st : BTreeState) : BTreeState :=
  pinPage { st with nextPid := st.nextPid + 1 } st.nextPid

/-- Zero-filled page viewed as a leaf of capacity `L`. -/
def emptyLeafNode (L : Int) : LeafNodeInt :=
  ⟨0, List.replicate L.toNat 0, List.replicate L.toNat rid0, 0⟩

/-- Zero-filled page viewed as an internal node of capacity `N`. -/
def emptyNonLeafNode (N : Int) : NonLeafNodeInt :=
  ⟨0, List.replicate N.toNat 0, List.replicate (N.toNat + 1) 0⟩

/-- Node stored at page `p`; an unallocated page reads as a zero page
(empty leaf), matching zero-filled allocation. -/
def getNode (st : BTreeState) (p : Int) : Node :=
  (alookup st.pages p).getD (.leaf (emptyLeafNode st.leafOccupancy))

/-- Page `p` reinterpreted as a leaf (`(LeafNodeInt *)page`). -/
def getLeaf (st : BTreeState) (p : Int) : LeafNodeInt :=
  match getNode st p with
  | .leaf l => l
  | .nonleaf _ => emptyLeafNode st.leafOccupancy

/-- Page `p` reinterpreted as an internal node (`(NonLeafNodeInt *)page`). -/
def getNonLeaf (st : BTreeState) (p : Int) : NonLeafNodeInt :=
  match getNode st p with
  | .nonleaf n => n
  | .leaf _ => emptyNonLeafNode st.nodeOccupancy

/-- The `level` field of the node on page `p` (both layouts store it at
the same offset; the source reads it through a `NonLeafNodeInt` cast). -/
def nodeLevel : Node → Int
  | .leaf l => l.level
  | .nonleaf n => n.level

/-- `BTreeIndex::isKeyValid` (lines 634-656): range containment test for
the four operator combinations, translated branch by branch. -/
def isKeyValid (lowVal : Int) (lowOp : Operator) (highVal : Int) (highOp : Operator)
    (key : Int) : Bool :=
  if highOp = .LTE ∧ lowOp = .GTE then
    decide (key ≤ highVal ∧ key ≥ lowVal)
  else if highOp = .LTE ∧ lowOp = .GT then
    decide (key ≤ highVal ∧ key > lowVal)
  else if highOp = .LT ∧ lowOp = .GTE then
    decide (key < highVal ∧ key ≥ lowVal)
  else
    decide (key < highVal ∧ key > lowVal)

/-- First loop of `findNextNonLeaf` and of `insertNonLeaf` (lines 614-619
and 326-330): `fuel` bounded iterations of
`if (pageNoArray[last] == 0) last--;` (the loop counter `i` only fixes the
iteration count). -/
def occLoop (pageNo : List Int) : Nat → Int → Int
  | 0, last => last
  | k + 1, last =>
      occLoop pageNo k (if arrGet 0 pageNo last = 0 then last - 1 else last)

/-- Second loop of `findNextNonLeaf` (lines 620-626): `fuel` bounded
iterations of `if (keyArray[last-1] >= key) last--;`. -/
def fnlLoop2 (keyArr : List Int) (key : Int) : Nat → Int → Int
  | 0, last => last
  | k + 1, last =>
      fnlLoop2 keyArr key k (if arrGet 0 keyArr (last - 1) ≥ key then last - 1 else last)

/-- `BTreeIndex::findNextNonLeaf` (lines 611-628): child page chosen for
`key` during descent.  The first loop runs `nodeOccupancy + 1` times, the
second runs `last` times (its counter `i` starts at the updated `last` and
stops at `i > 0`). -/
def findNextNonLeaf (N : Int) (curr : NonLeafNodeInt) (key : Int) : Int :=
  let last := occLoop curr.pageNoArray (N + 1).toNat N
  let last := fnlLoop2 curr.keyArray key last.toNat last
  arrGet 0 curr.pageNoArray last

/-- First loop of `insertLeaf` (lines 292-296): decrements `last` once for
every free slot anywhere in the leaf; iteration `k+1` inspects slot `k`. -/
def leafCountLoop (rids : List RecordId) : Nat → Int → Int
  | 0, last => last
  | k + 1, last =>
      leafCountLoop rids k
        (if (arrGet rid0 rids (k : Int)).page_number = 0 then last - 1 else last)

/-- Second loop of `insertLeaf` (lines 298-304): iteration `k+1` has loop
counter `i = k`; the comparison reads `keyArray[i]` while the shift writes
at `last`/`last+1`. -/
def insLoop (e : RIDKeyPair) :
    Nat → List Int → List RecordId → Int → List Int × List RecordId × Int
  | 0, ks, rs, last => (ks, rs, last)
  | k + 1, ks, rs, last =>
      if e.key < arrGet 0 ks (k : Int) then
        insLoop e k
          (arrSet ks (last + 1) (arrGet 0 ks last))
          (arrSet rs (last + 1) (arrGet rid0 rs last))
          (last - 1)
      else
        insLoop e k ks rs last

/-- `BTreeIndex::insertLeaf` (lines 286-317): ordered insertion of an
entry into a non-full leaf. -/
def insertLeaf (L : Int) (leaf : LeafNodeInt) (entry : RIDKeyPair) : LeafNodeInt :=
  if (arrGet rid0 leaf.ridArray 0).page_number ≠ 0 then
    let last := leafCountLoop leaf.ridArray L.toNat (L - 1)
    let r := insLoop entry (last + 1).toNat leaf.keyArray leaf.ridArray last
    let ks := r.1
    let rs := r.2.1
    let last := r.2.2
    { leaf with ridArray := arrSet rs (last + 1) entry.rid,
                keyArray := arrSet ks (last + 1) entry.key }
  else
    { leaf with ridArray := arrSet leaf.ridArray 0 entry.rid,
                keyArray := arrSet leaf.keyArray 0 entry.key }

/-- Second loop of `insertNonLeaf` (lines 332-338): iteration count is
`last + 1`; both the comparison and the shift use `last`. -/
def inlLoop (e : Int) :
    Nat → List Int → List Int → Int → List Int × List Int × Int
  | 0, ks, ps, last => (ks, ps, last)
  | k + 1, ks, ps, last =>
      if arrGet 0 ks (last - 1) > e then
        inlLoop e k
          (arrSet ks last (arrGet 0 ks (last - 1)))
          (arrSet ps (last + 1) (arrGet 0 ps last))
          (last - 1)
      else
        inlLoop e k ks ps last

/-- `BTreeIndex::insertNonLeaf` (lines 323-343): ordered insertion of a
separator entry into a non-full internal node. -/
def insertNonLeaf (N : Int) (nonleaf : NonLeafNodeInt) (entry : PageKeyPair) :
    NonLeafNodeInt :=
  let last := occLoop nonleaf.pageNoArray (N + 1).toNat N
  let r := inlLoop entry.key (last + 1).toNat nonleaf.keyArray nonleaf.pageNoArray last
  let ks := r.1
  let ps := r.2.1
  let last := r.2.2
  { nonleaf with keyArray := arrSet ks last entry.key,
                 pageNoArray := arrSet ps (last + 1) entry.pageNo }

/-- Move loop of `splitLeaf` (lines 391-396): iteration at index `i`
copies slot `i` into slot `i - center` of the new leaf and frees slot `i`
of the old leaf (only `page_number` is zeroed in `ridArray`). -/
def slMove (center : Int) :
    Nat → Int → List Int × List RecordId × List Int × List RecordId →
    List Int × List RecordId × List Int × List RecordId
  | 0, _, s => s
  | k + 1, i, (oK, oR, nK, nR) =>
      let nR := arrSet nR (i - center) (arrGet rid0 oR i)
      let oR := arrSet oR i { arrGet rid0 oR i with page_number := 0 }
      let nK := arrSet nK (i - center) (arrGet 0 oK i)
      let oK := arrSet oK i 0
      slMove center k (i + 1) (oK, oR, nK, nR)

/-- `BTreeIndex::rootUpdater` (lines 349-371): allocates a fresh internal
root over the two split halves and records the new root page id in the
metadata page and in `rootPageNum`. -/
def rootUpdater (st : BTreeState) (firstRootPage : Int) (newEntry : PageKeyPair) :
    BTreeState :=
  let rootId := st.nextPid
  let st := allocPagePin st
  let nr := emptyNonLeafNode st.nodeOccupancy
  let nr := { nr with keyArray := arrSet nr.keyArray 0 newEntry.key }
  let nr := { nr with pageNoArray := arrSet nr.pageNoArray 0 firstRootPage }
  let nr := { nr with pageNoArray := arrSet nr.pageNoArray 1 newEntry.pageNo }
  let nr := { nr with level := 0 }
  let st := pinPage st st.headerPageNum
  let st := { st with headerRootPageNo := rootId, rootPageNum := rootId }
  let st := writePage st rootId (.nonleaf nr)
  let st := unPinPage st st.headerPageNum
  let st := unPinPage st rootId
  st

/-- `BTreeIndex::splitLeaf` (lines 377-414): splits a full leaf around the
(possibly adjusted) midpoint, links the siblings, routes the incoming
entry, and returns the propagated `(new page, first key)` pair.  The C++
returns that pair through a pointer to a stack local (`newEntry =
&newPair`), a dangling pointer once the function returns; the embedding
returns the pair by value, which is the behaviour the caller relies on. -/
def splitLeaf (st : BTreeState) (leaf : LeafNodeInt) (leafPId : Int)
    (entry : RIDKeyPair) : BTreeState × PageKeyPair :=
  let pageNum := st.nextPid
  let st := allocPagePin st
  let newLeaf0 := { emptyLeafNode st.leafOccupancy with level := 1 }
  let center0 := st.leafOccupancy / 2
  let center :=
    if entry.key > arrGet 0 leaf.keyArray center0 ∧ st.leafOccupancy % 2 = 1 then
      center0 + 1
    else center0
  let m := slMove center (st.leafOccupancy - center).toNat center
    (leaf.keyArray, leaf.ridArray, newLeaf0.keyArray, newLeaf0.ridArray)
  let newLeaf := { newLeaf0 with keyArray := m.2.2.1, ridArray := m.2.2.2,
                                 rightSibPageNo := leaf.rightSibPageNo }
  let leafMoved := { leaf with keyArray := m.1, ridArray := m.2.1,
                               rightSibPageNo := pageNum }
  let routeRight := entry.key > arrGet 0 leafMoved.keyArray (center - 1)
  let newLeafF := if routeRight then insertLeaf st.leafOccupancy newLeaf entry else newLeaf
  let leafF := if routeRight then leafMoved else insertLeaf st.leafOccupancy leafMoved entry
  let newPair : PageKeyPair := ⟨pageNum, arrGet 0 newLeafF.keyArray 0⟩
  let st := writePage st pageNum (.leaf newLeafF)
  let st := writePage st leafPId (.leaf leafF)
  let st := unPinPage st pageNum
  let st := unPinPage st leafPId
  let st := if st.rootPageNum = leafPId then rootUpdater st leafPId newPair else st
  (st, newPair)

/-- Move loop of `splitNonLeaf` (lines 249-257), translated operation by
operation.  Iteration at index `i` copies `keyArray[i]` (which the
previous iteration has already zeroed, because that iteration zeroed
`keyArray[i]` as its "`i+1`" slot) and `pageNoArray[i+1]`, then zeroes
`keyArray[i+1]` and `pageNoArray[i+1]`; for `i = N-1` the write to
`keyArray[N]` is out of bounds in the source and drops in the model. -/
def snlMove (midIndex : Int) :
    Nat → Int → List Int × List Int × List Int × List Int →
    List Int × List Int × List Int × List Int
  | 0, _, s => s
  | k + 1, i, (cK, cP, nK, nP) =>
      let nK := arrSet nK (i - midIndex) (arrGet 0 cK i)
      let cK := arrSet cK (i + 1) 0
      let nP := arrSet nP (i - midIndex) (arrGet 0 cP (i + 1))
      let cP := arrSet cP (i + 1) 0
      snlMove midIndex k (i + 1) (cK, cP, nK, nP)

/-- `BTreeIndex::splitNonLeaf` (lines 223-280).  When `nodeOccupancy` is
odd the source reads the local `newParentIndex` without ever assigning it
(the `if (nodeOccupancy % 2 == 0)` block is the only assignment), so the
split's behaviour is undefined; the embedding returns `none` for that
uninitialized read. -/
def splitNonLeaf (st : BTreeState) (currNode : NonLeafNodeInt) (currPageId : Int)
    (newEntry : PageKeyPair) : Option (BTreeState × PageKeyPair) :=
  let newPageId := st.nextPid
  let st := allocPagePin st
  let newNode0 := { emptyNonLeafNode st.nodeOccupancy with level := 0 }
  let midIndex := st.nodeOccupancy / 2
  match (if st.nodeOccupancy % 2 = 0 then
           some (if newEntry.key < arrGet 0 currNode.keyArray midIndex then
                   midIndex - 1
                 else midIndex)
         else none) with
  | none => none
  | some newParentIndex =>
    let midIndex := newParentIndex + 1
    let newParentEntry : PageKeyPair := ⟨newPageId, arrGet 0 currNode.keyArray newParentIndex⟩
    let m := snlMove midIndex (st.nodeOccupancy - midIndex).toNat midIndex
      (currNode.keyArray, currNode.pageNoArray, newNode0.keyArray, newNode0.pageNoArray)
    let cK := arrSet m.1 newParentIndex 0
    let cP := arrSet m.2.1 newParentIndex 0
    let currNodeM := { currNode with keyArray := cK, pageNoArray := cP }
    let newNodeM := { newNode0 with keyArray := m.2.2.1, pageNoArray := m.2.2.2 }
    let routeLeft := newEntry.key < arrGet 0 newNodeM.keyArray 0
    let currNodeF :=
      if routeLeft then insertNonLeaf st.nodeOccupancy currNodeM newEntry else currNodeM
    let newNodeF :=
      if routeLeft then newNodeM else insertNonLeaf st.nodeOccupancy newNodeM newEntry
    let st := writePage st newPageId (.nonleaf newNodeF)
    let st := writePage st currPageId (.nonleaf currNodeF)
    let st := unPinPage st newPageId
    let st := unPinPage st currPageId
    let st := if currPageId = st.rootPageNum then rootUpdater st currPageId newParentEntry
              else st
    some (st, newParentEntry)

/-- `BTreeIndex::insertHelper` (lines 163-217): recursive descent carrying
the optional propagated split entry (`newEntry`); `none` overall means the
recursion fuel ran out. -/
def insertHelper (st : BTreeState) (fuel : Nat) (currentPageId : Int)
    (entry : RIDKeyPair) (isLeaf : Bool) : Option (BTreeState × Option PageKeyPair) :=
  match fuel with
  | 0 => none
  | fuel + 1 =>
    if isLeaf then
      let curr := getLeaf st currentPageId
      if (arrGet rid0 curr.ridArray (st.leafOccupancy - 1)).page_number = 0 then
        let curr := { curr with level := 1 }
        let curr := insertLeaf st.leafOccupancy curr entry
        let st := writePage st currentPageId (.leaf curr)
        let st := unPinPage st currentPageId
        some (st, none)
      else
        let r := splitLeaf st curr currentPageId entry
        some (r.1, some r.2)
    else
      let curr := getNonLeaf st currentPageId
      let nextPageNum := findNextNonLeaf st.nodeOccupancy curr entry.key
      let st := pinPage st nextPageNum
      let isLeafNext := nodeLevel (getNode st nextPageNum) = 1
      match insertHelper st fuel nextPageNum entry isLeafNext with
      | none => none
      | some (st, newEntry) =>
        match newEntry with
        | none => some (unPinPage st currentPageId, none)
        | some ne =>
          if arrGet 0 curr.pageNoArray st.nodeOccupancy = 0 then
            let currF := insertNonLeaf st.nodeOccupancy curr ne
            let st := writePage st currentPageId (.nonleaf currF)
            let st := unPinPage st currentPageId
            some (st, none)
          else
            match splitNonLeaf st curr currentPageId ne with
            | none => none
            | some (st, pair) => some (st, some pair)

/-- `BTreeIndex::insertEntry` (lines 141-156): pins the root (also
overwriting the scan cursor fields `currentPageNum`/`currentPageData`,
as the source does), determines whether the root is a leaf from its
`level`, and calls the helper. -/
def insertEntry (st : BTreeState) (fuel : Nat) (key : Int) (rid : RecordId) :
    Option BTreeState :=
  let entry : RIDKeyPair := ⟨rid, key⟩
  let st := pinPage st st.rootPageNum
  let st := { st with currentPageNum := st.rootPageNum }
  let isLeaf := nodeLevel (getNode st st.rootPageNum) = 1
  match insertHelper st fuel st.rootPageNum entry isLeaf with
  | none => none
  | some (st, _) => some st

/-- Baseline field values shared by both constructor paths (lines 46-51):
index fields from the constructor arguments, occupancies from the
compile-time constants, `scanExecuting = false`.  The scan cursor fields
are uninitialized in the C++ object; the model starts them at zero /
`Operator.GT`. -/
def ctorBase (attrByteOffsetArg attrTypeArg L N : Int) : BTreeState :=
  { pages := []
    nextPid := 1
    headerPageNum := 0
    rootPageNum := 0
    headerRootPageNo := 0
    pins := []
    badUnpin := false
    attributeType := attrTypeArg
    attrByteOffset := attrByteOffsetArg
    leafOccupancy := L
    nodeOccupancy := N
    scanExecuting := false
    nextEntry := 0
    currentPageNum := 0
    lowValInt := 0
    highValInt := 0
    lowOp := .GT
    highOp := .GT }

/-- Existing-file branch of the constructor (lines 57-67): reads the
first page (page 1), loads `rootPageNo` from the metadata, and unpins.
The source performs no comparison of the stored `relationName`,
`attrByteOffset` or `attrType` against the constructor arguments and can
therefore never raise `badIndexInfo` here.  (`headerPageNum` is left
unassigned by this branch in the C++; the model sets it to the first page
id 1, which is the value every later use assumes.) -/
def btreeCtorExisting (meta : IndexMetaInfo) (attrByteOffsetArg attrTypeArg L N : Int) :
    Except IndexError BTreeState :=
  let st := ctorBase attrByteOffsetArg attrTypeArg L N
  let st := { st with headerPageNum := 1 }
  let st := pinPage st 1
  let st := { st with rootPageNum := meta.rootPageNo, headerRootPageNo := meta.rootPageNo }
  let st := unPinPage st 1
  .ok st

/-- New-file branch of the constructor (lines 70-91), up to but not
including the bulk-build scan: allocates the metadata page (page 1) and
the initial root leaf (page 2), initialises both, and unpins them dirty. -/
def newIndexState (attrByteOffsetArg attrTypeArg L N : Int) : BTreeState :=
  let st := ctorBase attrByteOffsetArg attrTypeArg L N
  let headerPageNum := st.nextPid
  let st := allocPagePin st
  let rootPageNum := st.nextPid
  let st := allocPagePin st
  let st := { st with headerPageNum := headerPageNum, rootPageNum := rootPageNum,
                      headerRootPageNo := rootPageNum }
  let root := { emptyLeafNode L with rightSibPageNo := 0, level := 1 }
  let st := writePage st rootPageNum (.leaf root)
  let st := unPinPage st headerPageNum
  let st := unPinPage st rootPageNum
  st

/-- `BTreeIndex::~BTreeIndex` (lines 121-127): clears `scanExecuting` and
flushes the file.  It does not unpin any page: `flushFile` performs no
unpinning (in badgerdb it faults on a still-pinned page), so a leaf pinned
by an active scan stays pinned. -/
def btreeDestructor (st : BTreeState) : BTreeState :=
  { st with scanExecuting := false }

/-- `BTreeIndex::endScan` (lines 594-605): raises if no scan is running,
otherwise clears the scan state and unpins the current page.
`currentPageNum = -1` on a `uint32_t` wraps to `2^32 - 1`. -/
def endScan (st : BTreeState) : OpResult Unit :=
  if st.scanExecuting = false then
    .err st .scanNotInitialized
  else
    let st := { st with nextEntry := -1, scanExecuting := false }
    let st := unPinPage st st.currentPageNum
    .ok { st with currentPageNum := 4294967295 } ()

/-- Shared tail of `scanNext` (lines 576-587): range test on the slot at
`nextEntry` of `curr`, yielding the rid or `indexScanCompleted`. -/
def scanNextFinish (st : BTreeState) (curr : LeafNodeInt) : OpResult RecordId :=
  let key := arrGet 0 curr.keyArray st.nextEntry
  if isKeyValid st.lowValInt st.lowOp st.highValInt st.highOp key then
    .ok { st with nextEntry := st.nextEntry + 1 } (arrGet rid0 curr.ridArray st.nextEntry)
  else
    .err st .indexScanCompleted

/-- `BTreeIndex::scanNext` (lines 552-588): cursor advance with sibling
hop.  Note that both completed paths leave `scanExecuting` set. -/
def scanNext (st : BTreeState) : OpResult RecordId :=
  if st.scanExecuting = false then
    .err st .scanNotInitialized
  else
    let curr := getLeaf st st.currentPageNum
    if st.nextEntry = st.leafOccupancy ∨
        (arrGet rid0 curr.ridArray st.nextEntry).page_number = 0 then
      let st := unPinPage st st.currentPageNum
      if curr.rightSibPageNo = 0 then
        .err st .indexScanCompleted
      else
        let st := { st with nextEntry := 0, currentPageNum := curr.rightSibPageNo }
        let st := pinPage st st.currentPageNum
        scanNextFinish st (getLeaf st st.currentPageNum)
    else
      scanNextFinish st curr

/-- Outcome of one pass of the inner `for` loop of `startScan`
(lines 502-538) over the current leaf. -/
inductive InnerOut where
  | found
  | nsk
  | hopped
  | fellThrough
deriving DecidableEq, Repr

/-- Inner `for` loop of `startScan`: `countdown` slots remain, `i` is the
loop counter.  On a hop the sibling is pinned and `currentPageNum`
updated before the loop exits via `!isNull`; when the counter reaches
`leafOccupancy` without a hop (`isNull` never set on a completely full
leaf, and `i == leafOccupancy` is unreachable inside the loop body), the
pass falls through with the state unchanged and the outer loop re-scans
the same leaf. -/
def innerFor (st : BTreeState) (curr : LeafNodeInt) :
    Nat → Int → Bool → BTreeState × InnerOut
  | 0, _, _ => (st, .fellThrough)
  | countdown + 1, i, isNull =>
      let isNull :=
        if i < st.leafOccupancy - 1 ∧
            (arrGet rid0 curr.ridArray (i + 1)).page_number = 0 then
          true
        else isNull
      let key := arrGet 0 curr.keyArray i
      if isKeyValid st.lowValInt st.lowOp st.highValInt st.highOp key then
        ({ st with scanExecuting := true, nextEntry := i }, .found)
      else if (st.highOp = .LTE ∧ key > st.highValInt) ∨
              (st.highOp = .LT ∧ key ≥ st.highValInt) then
        (unPinPage st st.currentPageNum, .nsk)
      else if isNull = true ∨ i = st.leafOccupancy then
        let st' := unPinPage st st.currentPageNum
        if curr.rightSibPageNo = 0 then
          (st', .nsk)
        else
          let st' := { st' with currentPageNum := curr.rightSibPageNo }
          (pinPage st' st'.currentPageNum, .hopped)
      else
        innerFor st curr countdown (i + 1) isNull

/-- Outer `while (!entryFound)` loop of `startScan` (lines 490-539),
bounded by `fuel`; `none` means the loop iterated at least `fuel` times
(in particular on the source's infinite re-scan of a full leaf with no
match and no key past the high bound). -/
def leafLoop (st : BTreeState) : Nat → Option (OpResult Unit)
  | 0 => none
  | fuel + 1 =>
      let curr := getLeaf st st.currentPageNum
      if (arrGet rid0 curr.ridArray 0).page_number = 0 then
        some (.err (unPinPage st st.currentPageNum) .noSuchKeyFound)
      else
        match innerFor st curr st.leafOccupancy.toNat 0 false with
        | (st', .found) => some (.ok st' ())
        | (st', .nsk) => some (.err st' .noSuchKeyFound)
        | (st', .hopped) => leafLoop st' fuel
        | (st', .fellThrough) => leafLoop st' fuel

/-- Descent loop of `startScan` (lines 466-487), bounded by `fuel`:
repeatedly choose the child for `lowValInt`, unpin the parent, pin the
child, until a node with `level = 1` is reached. -/
def descendAux (st : BTreeState) : Nat → Option BTreeState
  | 0 => none
  | fuel + 1 =>
      let curr := getNonLeaf st st.currentPageNum
      let nextPageNum := findNextNonLeaf st.nodeOccupancy curr st.lowValInt
      let st := unPinPage st st.currentPageNum
      let st := { st with currentPageNum := nextPageNum }
      let st := pinPage st st.currentPageNum
      if nodeLevel (getNode st st.currentPageNum) = 1 then some st
      else descendAux st fuel

/-- `BTreeIndex::startScan` (lines 434-540): stores the parameters'
values into `lowValInt`/`highValInt` first, then validates the operators
and the range, ends a running scan, descends from the root and searches
for the first matching slot. -/
def startScan (st : BTreeState) (lowValParm highValParm : Int)
    (lowOpParm highOpParm : Operator) (fuel : Nat) : Option (OpResult Unit) :=
  let st := { st with lowValInt := lowValParm, highValInt := highValParm }
  if (lowOpParm ≠ .GT ∧ lowOpParm ≠ .GTE) ∨ (highOpParm ≠ .LT ∧ highOpParm ≠ .LTE) then
    some (.err st .badOpcodes)
  else if st.highValInt < st.lowValInt then
    some (.err st .badScanrange)
  else
    let st := { st with highOp := highOpParm, lowOp := lowOpParm }
    let st := if st.scanExecuting then (endScan st).stateOf else st
    let st := { st with currentPageNum := st.rootPageNum }
    let st := pinPage st st.currentPageNum
    if nodeLevel (getNode st st.currentPageNum) = 1 then
      leafLoop st fuel
    else
      match descendAux st fuel with
      | none => none
      | some st => leafLoop st fuel

/-- Run a list of `insertEntry` calls, threading the state. -/
def runInserts (fuel : Nat) : BTreeState → List (Int × Int × Int) → Option BTreeState
  | st, [] => some st
  | st, (k, rp, rs) :: rest =>
      match insertEntry st fuel k ⟨rp, rs⟩ with
      | none => none
      | some st' => runInserts fuel st' rest

/-- Live (key, rid.page, rid.slot) triples of a leaf, i.e. the slots whose
`page_number` is not the free sentinel. -/
def leafPairs (l : LeafNodeInt) : List (Int × Int × Int) :=
  (l.keyArray.zip l.ridArray).filterMap fun p =>
    if p.2.page_number ≠ 0 then some (p.1, p.2.page_number, p.2.slot_number) else none

/-- All (key, rid) pairs stored in the leaves of the tree rooted at page
`p`: descend through the non-null `pageNoArray` links, collecting the
live slots of every leaf reached (fuel-bounded in the tree height). -/
def reachableLeafPairs (st : BTreeState) : Nat → Int → List (Int × Int × Int)
  | 0, _ => []
  | fuel + 1, p =>
      match getNode st p with
      | .leaf l => leafPairs l
      | .nonleaf n =>
          (n.pageNoArray.filter (fun q => q ≠ 0)).flatMap
            (reachableLeafPairs st fuel)

/-! Claim-level specification predicates and concrete instances. -/

/-- Child slot demanded by the claim for the insertion descent: the
largest index `i` over the node's `c` live children with
`keyArray[i-1] ≤ k` (0 when there is none), i.e. for strictly increasing
separators the number of separators that are `≤ k`. -/
def claimedChildIx (n : NonLeafNodeInt) (c : Nat) (k : Int) : Nat :=
  (List.range (c - 1)).countP fun (j : Nat) => decide (arrGet 0 n.keyArray (j : Int) ≤ k)

/-- Child slot the code's descent actually takes: the largest index `i`
over the `c` live children with `keyArray[i-1] < k` (strictly), i.e. for
strictly increasing separators the number of separators strictly below
`k`. -/
def codeChildIx (n : NonLeafNodeInt) (c : Nat) (k : Int) : Nat :=
  (List.range (c - 1)).countP fun (j : Nat) => decide (arrGet 0 n.keyArray (j : Int) < k)

/-- Amended descent property (C3): on a well-formed internal node the
child taken is `pageNoArray[i]` for the largest `i` with
`keyArray[i-1] < k` strictly, so a key equal to a separator descends to
the separator's left child. -/
def DescentAmendedClaim (N : Int) (n : NonLeafNodeInt) (c : Nat) (k : Int) : Prop :=
  findNextNonLeaf N n k = arrGet 0 n.pageNoArray (codeChildIx n c k) ∧
  (0 < codeChildIx n c k → arrGet 0 n.keyArray ((codeChildIx n c k : Int) - 1) < k) ∧
  ((codeChildIx n c k : Int) < (c : Int) - 1 → k ≤ arrGet 0 n.keyArray (codeChildIx n c k))

/-- Insertion slot of `insertLeaf` into a sorted leaf with `c` live
entries: the number of live keys `≤ k`, i.e. the position immediately
after every existing entry whose key equals `k`. -/
def insPos (leaf : LeafNodeInt) (c : Nat) (k : Int) : Nat :=
  (List.range c).countP fun (j : Nat) => decide (arrGet 0 leaf.keyArray (j : Int) ≤ k)

/-- Characterisation of the output of `insLoop e f ks rs (f-1)` relative
to the original arrays `ks0`/`rs0`: the final cursor is `t - 1` for
`t` the number of keys `≤ e.key` among the first `f`, slots below `t` and
slot `t` are untouched, slots `(t, f]` hold the originals shifted right
by one, and slots beyond `f` are untouched. -/
def InsLoopOut (e : RIDKeyPair) (ks0 : List Int) (rs0 : List RecordId) (L f : Nat)
    (ks : List Int) (rs : List RecordId)
    (out : List Int × List RecordId × Int) : Prop :=
  let t := (List.range f).countP fun (j : Nat) => decide (arrGet 0 ks0 (j : Int) ≤ e.key)
  out.2.2 = (t : Int) - 1 ∧
  out.1.length = L ∧
  out.2.1.length = L ∧
  (∀ j : Nat, j < t →
    arrGet 0 out.1 (j : Int) = arrGet 0 ks0 (j : Int) ∧
    arrGet rid0 out.2.1 (j : Int) = arrGet rid0 rs0 (j : Int)) ∧
  (∀ j : Nat, t < j → j ≤ f →
    arrGet 0 out.1 (j : Int) = arrGet 0 ks0 ((j : Int) - 1) ∧
    arrGet rid0 out.2.1 (j : Int) = arrGet rid0 rs0 ((j : Int) - 1)) ∧
  (arrGet 0 out.1 (t : Int) = arrGet 0 ks (t : Int) ∧
    arrGet rid0 out.2.1 (t : Int) = arrGet rid0 rs (t : Int)) ∧
  (∀ j : Nat, f < j →
    arrGet 0 out.1 (j : Int) = arrGet 0 ks (j : Int) ∧
    arrGet rid0 out.2.1 (j : Int) = arrGet rid0 rs (j : Int))

/-- C10's property of `insertLeaf` on a sorted, non-full leaf with `c`
live entries: the new pair lands at `insPos` — after every key `≤ e.key`
(in particular after all duplicates of `e.key`) and before every strictly
greater key, which is shifted one slot to the right; all other slots are
untouched. -/
def InsertLeafDupClaim (L : Int) (leaf : LeafNodeInt) (e : RIDKeyPair) (c : Nat) : Prop :=
  let t := insPos leaf c e.key
  let res := insertLeaf L leaf e
  arrGet 0 res.keyArray (t : Int) = e.key ∧
  arrGet rid0 res.ridArray (t : Int) = e.rid ∧
  (∀ j : Nat, j < t →
    arrGet 0 res.keyArray (j : Int) = arrGet 0 leaf.keyArray (j : Int) ∧
    arrGet rid0 res.ridArray (j : Int) = arrGet rid0 leaf.ridArray (j : Int)) ∧
  (∀ j : Nat, t < j → j ≤ c →
    arrGet 0 res.keyArray (j : Int) = arrGet 0 leaf.keyArray ((j : Int) - 1) ∧
    arrGet rid0 res.ridArray (j : Int) = arrGet rid0 leaf.ridArray ((j : Int) - 1)) ∧
  (∀ j : Nat, j < t → arrGet 0 leaf.keyArray (j : Int) ≤ e.key) ∧
  (∀ j : Nat, t ≤ j → j < c → e.key < arrGet 0 leaf.keyArray (j : Int))

/-- Characterisation of the output of the `splitLeaf` move loop: after
`k0` iterations starting at slot `i`, the old arrays are untouched
outside `[i, i+k0)` and freed inside it (keys zeroed, rid `page_number`
zeroed, rid `slot_number` kept), and the new arrays hold the old entries
of `[i, i+k0)` shifted down by `center`, untouched elsewhere. -/
def SlMoveOut (center k0 i : Int) (oK : List Int) (oR : List RecordId)
    (nK : List Int) (nR : List RecordId)
    (r : List Int × List RecordId × List Int × List RecordId) : Prop :=
  r.1.length = oK.length ∧
  r.2.1.length = oR.length ∧
  r.2.2.1.length = nK.length ∧
  r.2.2.2.length = nR.length ∧
  (∀ j : Int, j < i ∨ i + k0 ≤ j →
    arrGet 0 r.1 j = arrGet 0 oK j ∧ arrGet rid0 r.2.1 j = arrGet rid0 oR j) ∧
  (∀ j : Int, i ≤ j → j < i + k0 →
    arrGet 0 r.1 j = 0 ∧ (arrGet rid0 r.2.1 j).page_number = 0 ∧
    (arrGet rid0 r.2.1 j).slot_number = (arrGet rid0 oR j).slot_number) ∧
  (∀ j : Int, j < i - center ∨ i - center + k0 ≤ j →
    arrGet 0 r.2.2.1 j = arrGet 0 nK j ∧ arrGet rid0 r.2.2.2 j = arrGet rid0 nR j) ∧
  (∀ j : Int, i - center ≤ j → j < i - center + k0 → j < (nK.length : Int) →
    j < (nR.length : Int) →
    arrGet 0 r.2.2.1 j = arrGet 0 oK (center + j) ∧
    arrGet rid0 r.2.2.2 j = arrGet rid0 oR (center + j))

/-- C7's property of `splitLeaf` on a full leaf `X` of capacity `L`: with
the (possibly adjusted) midpoint `m`, the new right leaf `R` receives the
entries `[m, L)` in order, the vacated slots of `X` are freed (key zeroed,
`page_number` zeroed), the sibling links are spliced, the incoming entry
goes into `X` iff its key is at most `X`'s last remaining key (else into
`R`), and the propagated pair is `(R`'s page id, `R`'s first key after the
insertion`)`. -/
def SplitLeafClaim (st : BTreeState) (leaf : LeafNodeInt) (leafPId : Int)
    (e : RIDKeyPair) : Prop :=
  let L := st.leafOccupancy
  let m0 := L / 2
  let m := if L % 2 = 1 ∧ e.key > arrGet 0 leaf.keyArray m0 then m0 + 1 else m0
  let pid' := st.nextPid
  let r := splitLeaf st leaf leafPId e
  let oldF := getLeaf r.1 leafPId
  let newF := getLeaf r.1 pid'
  newF.rightSibPageNo = leaf.rightSibPageNo ∧
  oldF.rightSibPageNo = pid' ∧
  r.2 = ⟨pid', arrGet 0 newF.keyArray 0⟩ ∧
  ∃ X R : LeafNodeInt,
    X.rightSibPageNo = pid' ∧
    R.rightSibPageNo = leaf.rightSibPageNo ∧
    R.level = 1 ∧
    (∀ j : Int, 0 ≤ j → j < m →
      arrGet 0 X.keyArray j = arrGet 0 leaf.keyArray j ∧
      arrGet rid0 X.ridArray j = arrGet rid0 leaf.ridArray j) ∧
    (∀ j : Int, m ≤ j → j < L →
      arrGet 0 X.keyArray j = 0 ∧ (arrGet rid0 X.ridArray j).page_number = 0) ∧
    (∀ j : Int, 0 ≤ j → j < L - m →
      arrGet 0 R.keyArray j = arrGet 0 leaf.keyArray (m + j) ∧
      arrGet rid0 R.ridArray j = arrGet rid0 leaf.ridArray (m + j)) ∧
    (∀ j : Int, L - m ≤ j → j < L →
      arrGet 0 R.keyArray j = 0 ∧ arrGet rid0 R.ridArray j = rid0) ∧
    (e.key ≤ arrGet 0 leaf.keyArray (m - 1) → oldF = insertLeaf L X e ∧ newF = R) ∧
    (e.key > arrGet 0 leaf.keyArray (m - 1) → oldF = X ∧ newF = insertLeaf L R e)

/-- The split midpoint chosen by `splitLeaf` (its local `center` after
the odd-capacity adjustment), named for use in the proofs about
`splitLeaf`. -/
def slCenter (st : BTreeState) (leaf : LeafNodeInt) (e : RIDKeyPair) : Int :=
  if e.key > arrGet 0 leaf.keyArray (st.leafOccupancy / 2) ∧ st.leafOccupancy % 2 = 1 then
    st.leafOccupancy / 2 + 1
  else st.leafOccupancy / 2

/-- The four arrays produced by `splitLeaf`'s move loop, named for use in
the proofs about `splitLeaf`. -/
def slMoved (st : BTreeState) (leaf : LeafNodeInt) (e : RIDKeyPair) :
    List Int × List RecordId × List Int × List RecordId :=
  slMove (slCenter st leaf e) (st.leafOccupancy - slCenter st leaf e).toNat
    (slCenter st leaf e)
    (leaf.keyArray, leaf.ridArray,
      { emptyLeafNode st.leafOccupancy with level := 1 }.keyArray,
      { emptyLeafNode st.leafOccupancy with level := 1 }.ridArray)

/-- The old leaf right after the move loop and relinking, before the
incoming entry is routed. -/
def slX (st : BTreeState) (leaf : LeafNodeInt) (e : RIDKeyPair) : LeafNodeInt :=
  ⟨leaf.level, (slMoved st leaf e).1, (slMoved st leaf e).2.1, st.nextPid⟩

/-- The fresh right leaf right after the move loop and relinking, before
the incoming entry is routed. -/
def slR (st : BTreeState) (leaf : LeafNodeInt) (e : RIDKeyPair) : LeafNodeInt :=
  ⟨1, (slMoved st leaf e).2.2.1, (slMoved st leaf e).2.2.2, leaf.rightSibPageNo⟩

/-- Final contents of the old leaf page written by `splitLeaf`. -/
def slOldF (st : BTreeState) (leaf : LeafNodeInt) (e : RIDKeyPair) : LeafNodeInt :=
  if e.key > arrGet 0 (slMoved st leaf e).1 (slCenter st leaf e - 1) then slX st leaf e
  else insertLeaf st.leafOccupancy (slX st leaf e) e

/-- Final contents of the new right leaf page written by `splitLeaf`. -/
def slNewF (st : BTreeState) (leaf : LeafNodeInt) (e : RIDKeyPair) : LeafNodeInt :=
  if e.key > arrGet 0 (slMoved st leaf e).1 (slCenter st leaf e - 1) then
    insertLeaf st.leafOccupancy (slR st leaf e) e
  else slR st leaf e

/-- The `(new page, first key)` pair propagated by `splitLeaf`. -/
def slPair (st : BTreeState) (leaf : LeafNodeInt) (e : RIDKeyPair) : PageKeyPair :=
  ⟨st.nextPid, arrGet 0 (slNewF st leaf e).keyArray 0⟩

/-- The state produced by `splitLeaf` up to (but not including) the final
root-update step: new page allocated and pinned, both halves written, both
pages unpinned. -/
def slSt4 (st : BTreeState) (leaf : LeafNodeInt) (leafPId : Int) (e : RIDKeyPair) :
    BTreeState :=
  unPinPage
    (unPinPage
      (writePage
        (writePage (allocPagePin st) st.nextPid (.leaf (slNewF st leaf e)))
        leafPId (.leaf (slOldF st leaf e)))
      st.nextPid)
    leafPId

/-- C7 witness instance: a small index state with leaf capacity 2. -/
def c7wSt : BTreeState := { ctorBase 0 1 2 2 with nextPid := 9, rootPageNum := 5 }

/-- C7 witness instance: a full leaf `[10, 20]`. -/
def c7wLeaf : LeafNodeInt := ⟨1, [10, 20], [⟨1, 1⟩, ⟨2, 2⟩], 0⟩

/-- C8's description of `scanNext`: `scanNotInitialized` exactly when no
scan runs; at the end of the current leaf (cursor at `leafOccupancy` or on
a free slot) the leaf is unpinned and the scan either completes (no right
sibling) or pins the sibling and restarts the cursor at slot 0; then the
slot's key is range-checked: out of range completes the scan, in range
yields the rid and advances the cursor. -/
def ScanNextClaim (st : BTreeState) : Prop :=
  let curr := getLeaf st st.currentPageNum
  let atEnd := st.nextEntry = st.leafOccupancy ∨
    (arrGet rid0 curr.ridArray st.nextEntry).page_number = 0
  let sib := curr.rightSibPageNo
  let r := scanNext st
  (r.errorOf = some .scanNotInitialized ↔ st.scanExecuting = false) ∧
  (st.scanExecuting = true →
    (atEnd → sib = 0 →
      r.errorOf = some .indexScanCompleted ∧
      ∀ p : Int, pinCountOf r.stateOf p =
        pinCountOf st p - (if p = st.currentPageNum then 1 else 0)) ∧
    (atEnd → sib ≠ 0 →
      (isKeyValid st.lowValInt st.lowOp st.highValInt st.highOp
          (arrGet 0 (getLeaf st sib).keyArray 0) = true →
        r.valueOf = some (arrGet rid0 (getLeaf st sib).ridArray 0) ∧
        r.stateOf.nextEntry = 1 ∧ r.stateOf.currentPageNum = sib ∧
        ∀ p : Int, pinCountOf r.stateOf p =
          pinCountOf st p - (if p = st.currentPageNum then 1 else 0) +
            (if p = sib then 1 else 0)) ∧
      (isKeyValid st.lowValInt st.lowOp st.highValInt st.highOp
          (arrGet 0 (getLeaf st sib).keyArray 0) = false →
        r.errorOf = some .indexScanCompleted ∧
        r.stateOf.nextEntry = 0 ∧ r.stateOf.currentPageNum = sib ∧
        ∀ p : Int, pinCountOf r.stateOf p =
          pinCountOf st p - (if p = st.currentPageNum then 1 else 0) +
            (if p = sib then 1 else 0))) ∧
    (¬atEnd →
      (isKeyValid st.lowValInt st.lowOp st.highValInt st.highOp
          (arrGet 0 curr.keyArray st.nextEntry) = true →
        r.valueOf = some (arrGet rid0 curr.ridArray st.nextEntry) ∧
        r.stateOf.nextEntry = st.nextEntry + 1 ∧
        r.stateOf.currentPageNum = st.currentPageNum ∧
        r.stateOf.pins = st.pins) ∧
      (isKeyValid st.lowValInt st.lowOp st.highValInt st.highOp
          (arrGet 0 curr.keyArray st.nextEntry) = false →
        r.errorOf = some .indexScanCompleted ∧ r.stateOf = st)))

/-- Root page id of a constructor result, when it succeeded. -/
def exceptRootOf : Except IndexError BTreeState → Option Int
  | .ok st => some st.rootPageNum
  | .error _ => none

/-- C1 instance: index with `leafOccupancy = nodeOccupancy = 2`, freshly
created (metadata page 1, empty root leaf page 2). -/
def c1init : BTreeState := newIndexState 4 1 2 2

/-- C1 instance: five ascending inserts, enough to force the first
internal-node split. -/
def c1inserts : List (Int × Int × Int) :=
  [(10, 10, 10), (20, 20, 20), (30, 30, 30), (40, 40, 40), (50, 50, 50)]

/-- C1 instance: the state after the five inserts. -/
def c1run : Option BTreeState := runInserts 10 c1init c1inserts

/-- C2 instance: metadata of an existing index file built with attribute
byte offset 4 and attribute type 1, root on page 9. -/
def c2meta : IndexMetaInfo := ⟨"relA", 4, 1, 9⟩

/-- C2 instance: reopening that file with attribute byte offset 8 and
attribute type 2, both differing from the stored metadata. -/
def c2result : Except IndexError BTreeState := btreeCtorExisting c2meta 8 2 3 3

/-- C3 counterexample node: two live children `[7, 8]` separated by key 5. -/
def c3node : NonLeafNodeInt := ⟨0, [5, 0], [7, 8, 0]⟩

/-- C4 instance: index state with odd `nodeOccupancy = 3`. -/
def c4stOdd : BTreeState := { ctorBase 0 1 4 3 with nextPid := 50, rootPageNum := 99 }

/-- C4 instance: full internal node of capacity 3. -/
def c4nodeOdd : NonLeafNodeInt := ⟨0, [10, 20, 30], [2, 3, 4, 5]⟩

/-- C4 instance: index state with even `nodeOccupancy = 4`. -/
def c4stEven : BTreeState := { ctorBase 0 1 4 4 with nextPid := 50, rootPageNum := 99 }

/-- C4 instance: full internal node of capacity 4. -/
def c4nodeEven : NonLeafNodeInt := ⟨0, [10, 20, 30, 40], [2, 3, 4, 5, 6]⟩

/-- C5 instance: the index produced by inserting keys 1, 2, 3 into a
fresh index of leaf capacity 3 — a single root leaf, completely full,
with no right sibling. -/
def c5state : BTreeState :=
  { pages := [(2, .leaf ⟨1, [1, 2, 3], [⟨1, 1⟩, ⟨2, 2⟩, ⟨3, 3⟩], 0⟩)]
    nextPid := 3
    headerPageNum := 1
    rootPageNum := 2
    headerRootPageNo := 2
    pins := [(1, 0), (2, 0)]
    badUnpin := false
    attributeType := 1
    attrByteOffset := 4
    leafOccupancy := 3
    nodeOccupancy := 3
    scanExecuting := false
    nextEntry := 0
    currentPageNum := 2
    lowValInt := 0
    highValInt := 0
    lowOp := .GT
    highOp := .GT }

/-- C5 instance: the state of `startScan c5state 10 20 GTE LTE` at the
entry of the leaf-search loop (bounds stored, operators stored, root page
pinned). -/
def c5mid : BTreeState :=
  { c5state with
    lowValInt := 10
    highValInt := 20
    lowOp := .GTE
    highOp := .LTE
    pins := [(1, 0), (2, 1)] }

/-- C6 instance: a leaf with one live entry and no right sibling. -/
def c6leaf : LeafNodeInt := ⟨1, [5, 0], [⟨5, 5⟩, ⟨0, 0⟩], 0⟩

/-- C6 instance: an index with an active scan whose cursor sits past the
last live slot of that (pinned) leaf. -/
def c6scanSt : BTreeState :=
  { pages := [(2, .leaf c6leaf)]
    nextPid := 3
    headerPageNum := 1
    rootPageNum := 2
    headerRootPageNo := 2
    pins := [(1, 0), (2, 1)]
    badUnpin := false
    attributeType := 1
    attrByteOffset := 4
    leafOccupancy := 2
    nodeOccupancy := 2
    scanExecuting := true
    nextEntry := 1
    currentPageNum := 2
    lowValInt := 0
    highValInt := 100
    lowOp := .GTE
    highOp := .LTE }

/-- C9 counterexample instance: an index with an active scan over the
range `[0, 100]`, its leaf pinned. -/
def c9preState : BTreeState :=
  { pages := [(2, .leaf ⟨1, [5, 0], [⟨5, 5⟩, ⟨0, 0⟩], 0⟩)]
    nextPid := 3
    headerPageNum := 1
    rootPageNum := 2
    headerRootPageNo := 2
    pins := [(1, 0), (2, 1)]
    badUnpin := false
    attributeType := 1
    attrByteOffset := 4
    leafOccupancy := 2
    nodeOccupancy := 2
    scanExecuting := true
    nextEntry := 0
    currentPageNum := 2
    lowValInt := 0
    highValInt := 100
    lowOp := .GTE
    highOp := .LTE }

/-- C9 counterexample instance: the state left behind by the failed
`startScan` — identical except for the clobbered scan bounds. -/
def c9afterBad : BTreeState := { c9preState with lowValInt := 60, highValInt := 100 }

/-- Witness instance: a plain idle index state. -/
def c9wSt : BTreeState := ctorBase 0 1 2 2

/-- A (fuel-bounded) `startScan` outcome raised `BadScanRangeException`:
it returned within the fuel bound and with that error. -/
def raisesBadScanrange : Option (OpResult Unit) → Prop
  | some (.err _ e) => e = .badScanrange
  | _ => False

/-! Theorems.  General-purpose lemmas first, then one theorem per claim
(with its witness or counterexample where required). -/

theorem length_arrSet {α : Type} (l : List α) (i : Int) (v : α) :
    (arrSet l i v).length = l.length := by
  unfold arrSet; split <;> simp

theorem arrGet_neg {α : Type} (d : α) (l : List α) (i : Int) (h : i < 0) :
    arrGet d l i = d := by
  unfold arrGet
  rw [if_neg (by omega)]

theorem arrGet_arrSet_ne {α : Type} (d : α) (l : List α) (i j : Int) (v : α)
    (h : i ≠ j) : arrGet d (arrSet l i v) j = arrGet d l j := by
  unfold arrGet arrSet
  by_cases h0 : 0 ≤ i
  · by_cases h1 : 0 ≤ j
    · rw [if_pos h0, if_pos h1, if_pos h1, List.getD_eq_getElem?_getD,
        List.getD_eq_getElem?_getD, List.getElem?_set_ne (by omega)]
    · rw [if_neg h1, if_neg h1]
  · rw [if_neg h0]

theorem arrGet_arrSet_self {α : Type} (d : α) (l : List α) (i : Int) (v : α)
    (h0 : 0 ≤ i) (h : i.toNat < l.length) : arrGet d (arrSet l i v) i = v := by
  unfold arrGet arrSet
  rw [if_pos h0, if_pos h0, List.getD_eq_getElem?_getD, List.getElem?_set_self]
  · simp [h]
  · exact h

theorem arrGet_arrSet_default {α : Type} (d : α) (l : List α) (i : Int) :
    arrGet d (arrSet l i d) i = d := by
  by_cases h0 : 0 ≤ i
  · by_cases h : i.toNat < l.length
    · exact arrGet_arrSet_self d l i d h0 h
    · unfold arrGet arrSet
      rw [if_pos h0, if_pos h0, List.getD_eq_getElem?_getD,
        List.getElem?_eq_none (by simpa [length_arrSet, List.length_set] using Nat.le_of_not_lt h)]
      simp
  · exact arrGet_neg d _ i (by omega)

theorem alookup_nil {α : Type} (k : Int) : alookup ([] : List (Int × α)) k = none := rfl

theorem alookup_cons {α : Type} (x : Int × α) (t : List (Int × α)) (k : Int) :
    alookup (x :: t) k = if x.1 = k then some x.2 else alookup t k := by
  by_cases h : x.1 = k
  · rw [if_pos h]
    unfold alookup
    rw [List.find?_cons_of_pos _ (by simpa using h)]
    rfl
  · rw [if_neg h]
    unfold alookup
    rw [List.find?_cons_of_neg _ (by simpa using h)]

theorem alookup_aset_self {α : Type} (l : List (Int × α)) (k : Int) (v : α) :
    alookup (aset l k v) k = some v := by
  induction l with
  | nil =>
    show alookup [(k, v)] k = some v
    rw [alookup_cons, if_pos rfl]
  | cons hd t ih =>
    unfold aset
    by_cases h : hd.1 = k
    · rw [if_pos h, alookup_cons, if_pos rfl]
    · rw [if_neg h, alookup_cons, if_neg h, ih]

theorem alookup_aset_ne {α : Type} (l : List (Int × α)) (k k' : Int) (v : α)
    (h : k' ≠ k) : alookup (aset l k v) k' = alookup l k' := by
  induction l with
  | nil =>
    show alookup [(k, v)] k' = alookup [] k'
    rw [alookup_cons, if_neg (Ne.symm h)]
  | cons hd t ih =>
    unfold aset
    by_cases hh : hd.1 = k
    · rw [if_pos hh, alookup_cons, alookup_cons, if_neg (by omega : ¬(k, v).1 = k'),
        if_neg (by omega : ¬hd.1 = k')]
    · rw [if_neg hh, alookup_cons, alookup_cons, ih]

theorem pinCountOf_pinPage (st : BTreeState) (p q : Int) :
    pinCountOf (pinPage st p) q =
      pinCountOf st q + (if q = p then 1 else 0) := by
  by_cases h : q = p
  · subst h
    simp [pinCountOf, pinPage, alookup_aset_self]
  · simp [pinCountOf, pinPage, alookup_aset_ne _ _ _ _ h, h]

theorem pinCountOf_unPinPage (st : BTreeState) (p q : Int) :
    pinCountOf (unPinPage st p) q =
      pinCountOf st q - (if q = p then 1 else 0) := by
  by_cases h : q = p
  · subst h
    simp [pinCountOf, unPinPage, alookup_aset_self]
  · simp [pinCountOf, unPinPage, alookup_aset_ne _ _ _ _ h, h]

theorem countP_downward (c : Nat) (P : Nat → Bool)
    (hmono : ∀ a b : Nat, a ≤ b → b < c → P b = true → P a = true) :
    (∀ j : Nat, j < (List.range c).countP P → P j = true) ∧
    (∀ j : Nat, (List.range c).countP P ≤ j → j < c → P j = false) := by
  induction c with
  | zero =>
    constructor
    · intro j h
      simp [List.range_zero] at h
    · intro j _ hj
      omega
  | succ n ih =>
    have hmono' : ∀ a b : Nat, a ≤ b → b < n → P b = true → P a = true :=
      fun a b hab hb => hmono a b hab (by omega)
    by_cases hP : P n = true
    · have hall : ∀ a : Nat, a < n + 1 → P a = true :=
        fun a ha => hmono a n (by omega) (by omega) hP
      have hcount : (List.range (n + 1)).countP P = n + 1 := by
        have h1 : ∀ a ∈ List.range (n + 1), P a = true :=
          fun a ha => hall a (List.mem_range.mp ha)
        simpa [List.length_range] using List.countP_eq_length.mpr h1
      constructor
      · intro j hj
        rw [hcount] at hj
        exact hall j hj
      · intro j hj hjc
        rw [hcount] at hj
        omega
    · have hPn : P n = false := by
        cases h : P n with
        | false => rfl
        | true => exact absurd h hP
      have hcount : (List.range (n + 1)).countP P = (List.range n).countP P := by
        rw [List.range_succ, List.countP_append]
        simp [hPn]
      obtain ⟨ih1, ih2⟩ := ih hmono'
      constructor
      · intro j hj
        rw [hcount] at hj
        exact ih1 j hj
      · intro j hj hjc
        rw [hcount] at hj
        by_cases hjn : j = n
        · subst hjn
          exact hPn
        · exact ih2 j hj (by omega)

theorem leafCountLoop_eq (rs : List RecordId) :
    ∀ (k : Nat) (last : Int),
      leafCountLoop rs k last =
        last - ((List.range k).countP fun (j : Nat) =>
          decide ((arrGet rid0 rs (j : Int)).page_number = 0) : Nat) := by
  intro k
  induction k with
  | zero =>
    intro last
    simp [leafCountLoop]
  | succ n ih =>
    intro last
    have hstep : leafCountLoop rs (n + 1) last =
        leafCountLoop rs n
          (if (arrGet rid0 rs (n : Int)).page_number = 0 then last - 1 else last) := rfl
    rw [hstep, ih, List.range_succ, List.countP_append]
    by_cases h : (arrGet rid0 rs (n : Int)).page_number = 0
    · rw [if_pos h]
      have h1 : (List.countP (fun (j : Nat) =>
          decide ((arrGet rid0 rs (j : Int)).page_number = 0)) [n]) = 1 := by
        simp [h]
      rw [h1]
      push_cast
      ring
    · rw [if_neg h]
      have h1 : (List.countP (fun (j : Nat) =>
          decide ((arrGet rid0 rs (j : Int)).page_number = 0)) [n]) = 0 := by
        simp [h]
      rw [h1]
      push_cast
      ring

theorem insLoop_stop (e : RIDKeyPair) :
    ∀ (k : Nat) (ks : List Int) (rs : List RecordId) (last : Int),
      (∀ j : Nat, j < k → arrGet 0 ks (j : Int) ≤ e.key) →
      insLoop e k ks rs last = (ks, rs, last) := by
  intro k
  induction k with
  | zero => intro ks rs last _; rfl
  | succ n ih =>
    intro ks rs last h
    have hc : ¬ e.key < arrGet 0 ks (n : Int) := not_lt.mpr (h n (by omega))
    have hstep : insLoop e (n + 1) ks rs last =
        if e.key < arrGet 0 ks (n : Int) then
          insLoop e n (arrSet ks (last + 1) (arrGet 0 ks last))
            (arrSet rs (last + 1) (arrGet rid0 rs last)) (last - 1)
        else insLoop e n ks rs last := rfl
    rw [hstep, if_neg hc]
    exact ih ks rs last (fun j hj => h j (by omega))

theorem insLoop_sync (e : RIDKeyPair) (ks0 : List Int) (rs0 : List RecordId)
    (c L : Nat) (hcL : c < L)
    (hsort : ∀ a b : Nat, a ≤ b → b < c →
      arrGet 0 ks0 (a : Int) ≤ arrGet 0 ks0 (b : Int)) :
    ∀ (f : Nat) (ks : List Int) (rs : List RecordId),
      f ≤ c →
      ks.length = L → rs.length = L →
      (∀ j : Nat, j < f → arrGet 0 ks (j : Int) = arrGet 0 ks0 (j : Int)) →
      (∀ j : Nat, j < f → arrGet rid0 rs (j : Int) = arrGet rid0 rs0 (j : Int)) →
      InsLoopOut e ks0 rs0 L f ks rs (insLoop e f ks rs ((f : Int) - 1)) := by
  intro f
  induction f with
  | zero =>
    intro ks rs _ hk hr _ _
    refine ⟨by simp [insLoop], by simpa [insLoop] using hk, by simpa [insLoop] using hr,
      ?_, ?_, ⟨rfl, rfl⟩, fun j _ => ⟨rfl, rfl⟩⟩
    · intro j hj
      simp at hj
    · intro j hj hj'
      omega
  | succ n ih =>
    intro ks rs hfc hk hr hagK hagR
    have hKn : arrGet 0 ks (n : Int) = arrGet 0 ks0 (n : Int) := hagK n (by omega)
    have hlast : ((n + 1 : Nat) : Int) - 1 = (n : Int) := by push_cast; ring
    have hstep : insLoop e (n + 1) ks rs (((n + 1 : Nat) : Int) - 1) =
        if e.key < arrGet 0 ks (n : Int) then
          insLoop e n (arrSet ks ((n : Int) + 1) (arrGet 0 ks (n : Int)))
            (arrSet rs ((n : Int) + 1) (arrGet rid0 rs (n : Int))) ((n : Int) - 1)
        else insLoop e n ks rs (n : Int) := by
      rw [hlast]
      rfl
    by_cases hcond : e.key < arrGet 0 ks (n : Int)
    · -- shifting step: the key at slot n is strictly greater than e.key
      have hPn : (decide (arrGet 0 ks0 (n : Int) ≤ e.key)) = false := by
        rw [← hKn]
        simp
        omega
      have hcnt : ((List.range (n + 1)).countP fun (j : Nat) =>
            decide (arrGet 0 ks0 (j : Int) ≤ e.key)) =
          ((List.range n).countP fun (j : Nat) => decide (arrGet 0 ks0 (j : Int) ≤ e.key)) := by
        rw [List.range_succ, List.countP_append]
        simp [hPn]
      set t := ((List.range n).countP fun (j : Nat) =>
        decide (arrGet 0 ks0 (j : Int) ≤ e.key)) with ht
      have htn : t ≤ n := le_trans (List.countP_le_length _) (by simp [List.length_range])
      have hn1L : ((n : Int) + 1).toNat < L := by omega
      have hout := ih (arrSet ks ((n : Int) + 1) (arrGet 0 ks (n : Int)))
        (arrSet rs ((n : Int) + 1) (arrGet rid0 rs (n : Int)))
        (by omega)
        (by rw [length_arrSet]; exact hk)
        (by rw [length_arrSet]; exact hr)
        (fun j hj => by
          rw [arrGet_arrSet_ne _ _ _ _ _ (by omega)]
          exact hagK j (by omega))
        (fun j hj => by
          rw [arrGet_arrSet_ne _ _ _ _ _ (by omega)]
          exact hagR j (by omega))
      rw [hstep, if_pos hcond]
      obtain ⟨o1, o2, o3, o4, o5, o6, o7⟩ := hout
      refine ⟨by rw [hcnt]; exact o1, o2, o3, ?_, ?_, ?_, ?_⟩
      · intro j hj
        rw [hcnt] at hj
        exact o4 j hj
      · intro j hj hjf
        rw [hcnt] at hj
        by_cases hje : j = n + 1
        · subst hje
          have hb := o7 (n + 1) (by omega)
          have hcast : ((n + 1 : Nat) : Int) = (n : Int) + 1 := by push_cast; ring
          rw [hcast] at hb
          rw [hcast]
          constructor
          · rw [hb.1, arrGet_arrSet_self _ _ _ _ (by omega) (by rw [hk]; exact hn1L), hKn]
            congr 1
            ring
          · rw [hb.2, arrGet_arrSet_self _ _ _ _ (by omega) (by rw [hr]; exact hn1L),
              hagR n (by omega)]
            congr 1
            ring
        · exact o5 j hj (by omega)
      · rw [hcnt]
        constructor
        · rw [o6.1, arrGet_arrSet_ne _ _ _ _ _ (by omega)]
        · rw [o6.2, arrGet_arrSet_ne _ _ _ _ _ (by omega)]
      · intro j hj
        have hb := o7 j (by omega)
        constructor
        · rw [hb.1, arrGet_arrSet_ne _ _ _ _ _ (by omega)]
        · rw [hb.2, arrGet_arrSet_ne _ _ _ _ _ (by omega)]
    · -- stopping step: every key among the first n+1 is ≤ e.key
      have hgen : ∀ j : Nat, j < n + 1 → arrGet 0 ks0 (j : Int) ≤ e.key := by
        intro j hj
        have h1 : arrGet 0 ks0 (j : Int) ≤ arrGet 0 ks0 (n : Int) :=
          hsort j n (by omega) (by omega)
        have h2 : arrGet 0 ks0 (n : Int) ≤ e.key := by
          rw [← hKn]
          omega
        omega
      have hcnt : ((List.range (n + 1)).countP fun (j : Nat) =>
            decide (arrGet 0 ks0 (j : Int) ≤ e.key)) = n + 1 := by
        have h1 : ∀ a ∈ List.range (n + 1),
            (decide (arrGet 0 ks0 (a : Int) ≤ e.key)) = true := by
          intro a ha
          simpa using hgen a (List.mem_range.mp ha)
        simpa [List.length_range] using List.countP_eq_length.mpr h1
      have hstop : insLoop e n ks rs (n : Int) = (ks, rs, (n : Int)) :=
        insLoop_stop e n ks rs (n : Int)
          (fun j hj => by rw [hagK j (by omega)]; exact hgen j (by omega))
      rw [hstep, if_neg hcond, hstop]
      refine ⟨?_, hk, hr, ?_, ?_, ⟨rfl, rfl⟩, fun j _ => ⟨rfl, rfl⟩⟩
      · show (n : Int) = (((List.range (n + 1)).countP fun (j : Nat) =>
          decide (arrGet 0 ks0 (j : Int) ≤ e.key) : Nat) : Int) - 1
        rw [hcnt]
        push_cast
        ring
      · intro j hj
        rw [hcnt] at hj
        exact ⟨hagK j hj, hagR j hj⟩
      · intro j hj hjf
        rw [hcnt] at hj
        omega

theorem occLoop_stable (pn : List Int) (last : Int) (h : arrGet 0 pn last ≠ 0) :
    ∀ k : Nat, occLoop pn k last = last := by
  intro k
  induction k with
  | zero => rfl
  | succ n ih =>
    have hstep : occLoop pn (n + 1) last =
        occLoop pn n (if arrGet 0 pn last = 0 then last - 1 else last) := rfl
    rw [hstep, if_neg h]
    exact ih

theorem occLoop_reach (pn : List Int) (c1 : Int) (hne : arrGet 0 pn c1 ≠ 0) :
    ∀ (k : Nat) (last : Int), c1 ≤ last → last - c1 ≤ (k : Int) →
      (∀ j : Int, c1 < j → j ≤ last → arrGet 0 pn j = 0) →
      occLoop pn k last = c1 := by
  intro k
  induction k with
  | zero =>
    intro last h1 h2 _
    have h3 : last = c1 := by omega
    rw [h3]
    rfl
  | succ n ih =>
    intro last h1 h2 hz
    by_cases he : last = c1
    · subst he
      have hstep : occLoop pn (n + 1) last =
          occLoop pn n (if arrGet 0 pn last = 0 then last - 1 else last) := rfl
      rw [hstep, if_neg hne]
      exact occLoop_stable pn last hne n
    · have hz0 : arrGet 0 pn last = 0 := hz last (by omega) le_rfl
      have hstep : occLoop pn (n + 1) last =
          occLoop pn n (if arrGet 0 pn last = 0 then last - 1 else last) := rfl
      rw [hstep, if_pos hz0]
      exact ih (last - 1) (by omega) (by push_cast at h2 ⊢; omega)
        (fun j hj1 hj2 => hz j hj1 (by omega))

theorem fnlLoop2_stable (ks : List Int) (key last : Int)
    (h : ¬ arrGet 0 ks (last - 1) ≥ key) :
    ∀ f : Nat, fnlLoop2 ks key f last = last := by
  intro f
  induction f with
  | zero => rfl
  | succ n ih =>
    have hstep : fnlLoop2 ks key (n + 1) last =
        fnlLoop2 ks key n (if arrGet 0 ks (last - 1) ≥ key then last - 1 else last) := rfl
    rw [hstep, if_neg h]
    exact ih

theorem fnlLoop2_reach (ks : List Int) (key : Int) (t start : Int)
    (hstopOK : t = 0 ∨ arrGet 0 ks (t - 1) < key)
    (hge : ∀ j : Int, t < j → j ≤ start → arrGet 0 ks (j - 1) ≥ key) :
    ∀ (f : Nat) (last : Int), t ≤ last → last ≤ start → last - t ≤ (f : Int) →
      (t = 0 → (f : Int) ≤ last) →
      fnlLoop2 ks key f last = t := by
  intro f
  induction f with
  | zero =>
    intro last h1 h2 h3 _
    have h4 : last = t := by omega
    rw [h4]
    rfl
  | succ n ih =>
    intro last h1 h2 h3 h4
    by_cases he : last = t
    · subst he
      have ht1 : ¬ last = 0 := by
        intro h0
        have := h4 h0
        omega
      have hstop := hstopOK.resolve_left ht1
      have hcond : ¬ arrGet 0 ks (last - 1) ≥ key := by omega
      have hstep : fnlLoop2 ks key (n + 1) last =
          fnlLoop2 ks key n (if arrGet 0 ks (last - 1) ≥ key then last - 1 else last) := rfl
      rw [hstep, if_neg hcond]
      exact fnlLoop2_stable ks key last hcond n
    · have hc : arrGet 0 ks (last - 1) ≥ key := hge last (by omega) h2
      have hstep : fnlLoop2 ks key (n + 1) last =
          fnlLoop2 ks key n (if arrGet 0 ks (last - 1) ≥ key then last - 1 else last) := rfl
      rw [hstep, if_pos hc]
      exact ih (last - 1) (by omega) (by omega) (by push_cast at h3 ⊢; omega)
        (fun h0 => by have := h4 h0; push_cast at this ⊢; omega)

/-- C3 amended: on a well-formed internal node (live children exactly the
first `c` slots, separator keys strictly increasing), `findNextNonLeaf`
descends into `pageNoArray[i]` for `i` the largest index with
`keyArray[i-1] < k` (strict inequality), so a key equal to a separator
goes to that separator's left child, not its right. -/
theorem c3_descent_strict_less (N : Int) (n : NonLeafNodeInt) (c : Nat) (k : Int)
    (hc1 : 1 ≤ c)
    (hcN : (c : Int) ≤ N + 1)
    (hlive : ∀ j : Nat, j < c → arrGet 0 n.pageNoArray (j : Int) ≠ 0)
    (hfreeC : ∀ j : Nat, c ≤ j → (j : Int) ≤ N → arrGet 0 n.pageNoArray (j : Int) = 0)
    (hsort : ∀ a b : Nat, a < b → b < c - 1 →
      arrGet 0 n.keyArray (a : Int) < arrGet 0 n.keyArray (b : Int)) :
    DescentAmendedClaim N n c k := by
  have hcast1 : ((c - 1 : Nat) : Int) = (c : Int) - 1 := by omega
  have hne : arrGet 0 n.pageNoArray ((c : Int) - 1) ≠ 0 := by
    have := hlive (c - 1) (by omega)
    rwa [hcast1] at this
  have hloop1 : occLoop n.pageNoArray (N + 1).toNat N = (c : Int) - 1 := by
    apply occLoop_reach n.pageNoArray ((c : Int) - 1) hne (N + 1).toNat N (by omega)
      (by omega)
    intro j hj1 hj2
    have hj0 : 0 ≤ j := by omega
    have hc2 : ((j.toNat : Nat) : Int) = j := Int.toNat_of_nonneg hj0
    rw [← hc2]
    exact hfreeC j.toNat (by omega) (by omega)
  have hdown := countP_downward (c - 1)
    (fun (j : Nat) => decide (arrGet 0 n.keyArray (j : Int) < k))
    (fun a b hab hb hPb => by
      simp only [decide_eq_true_eq] at hPb ⊢
      rcases Nat.eq_or_lt_of_le hab with he | hlt
      · rwa [he]
      · exact lt_trans (hsort a b hlt hb) hPb)
  have htc2 : ((List.range (c - 1)).countP fun (j : Nat) =>
      decide (arrGet 0 n.keyArray (j : Int) < k)) ≤ c - 1 :=
    le_trans (List.countP_le_length _) (by simp [List.length_range])
  have htc : codeChildIx n c k ≤ c - 1 := htc2
  have hdefeq : codeChildIx n c k = ((List.range (c - 1)).countP fun (j : Nat) =>
      decide (arrGet 0 n.keyArray (j : Int) < k)) := rfl
  have hstopOK : ((codeChildIx n c k : Nat) : Int) = 0 ∨
      arrGet 0 n.keyArray (((codeChildIx n c k : Nat) : Int) - 1) < k := by
    by_cases h0 : codeChildIx n c k = 0
    · left
      rw [h0]
      rfl
    · right
      have := hdown.1 (codeChildIx n c k - 1) (by unfold codeChildIx at h0 ⊢; omega)
      simp only [decide_eq_true_eq] at this
      have hcast2 : ((codeChildIx n c k - 1 : Nat) : Int) =
          ((codeChildIx n c k : Nat) : Int) - 1 := by omega
      rwa [hcast2] at this
  have hge : ∀ j : Int, ((codeChildIx n c k : Nat) : Int) < j → j ≤ (c : Int) - 1 →
      arrGet 0 n.keyArray (j - 1) ≥ k := by
    intro j hj1 hj2
    have hj0 : 0 ≤ j - 1 := by omega
    have hcast3 : (((j - 1).toNat : Nat) : Int) = j - 1 := Int.toNat_of_nonneg hj0
    have := hdown.2 (j - 1).toNat (by omega) (by omega)
    simp only [decide_eq_false_iff_not, not_lt] at this
    rw [← hcast3]
    omega
  have hf : ((c : Int) - 1).toNat = c - 1 := by omega
  have hloop2 : fnlLoop2 n.keyArray k (c - 1) ((c : Int) - 1) =
      ((codeChildIx n c k : Nat) : Int) :=
    fnlLoop2_reach n.keyArray k ((codeChildIx n c k : Nat) : Int) ((c : Int) - 1)
      hstopOK hge (c - 1) ((c : Int) - 1) (by omega) le_rfl (by omega)
      (fun _ => by omega)
  refine ⟨?_, ?_, ?_⟩
  · unfold findNextNonLeaf
    simp only [hloop1, hf, hloop2]
  · intro hpos
    have := hdown.1 (codeChildIx n c k - 1) (by unfold codeChildIx at hpos ⊢; omega)
    simp only [decide_eq_true_eq] at this
    have hcast2 : ((codeChildIx n c k - 1 : Nat) : Int) =
        ((codeChildIx n c k : Nat) : Int) - 1 := by omega
    rwa [hcast2] at this
  · intro hlt
    have := hdown.2 (codeChildIx n c k) le_rfl (by omega)
    simp only [decide_eq_false_iff_not, not_lt] at this
    exact this

/-- Witness for C3's amended theorem: on the node with children `[7, 8]`
and separator 5, the descent with key 9 (strictly above the separator)
takes the right child, slot `codeChildIx = 1`. -/
theorem c3_descent_strict_less_witness : DescentAmendedClaim 2 c3node 2 9 :=
  c3_descent_strict_less 2 c3node 2 9 (by decide) (by decide) (by decide)
    (by
      intro j h1 h2
      have h3 : j = 2 := by omega
      subst h3
      decide)
    (by intro a b hab hb; omega)

/-- C10: on a sorted, compact, non-full leaf with `c` live entries, one
of which already carries the key of the incoming entry `e`, `insertLeaf`
places `e` at the slot `insPos` — the number of live keys `≤ e.key` —
which is immediately after every existing entry with an equal key: slots
below it are untouched, the strictly greater suffix is shifted right by
one, and record ids sharing a key therefore appear in insertion order. -/
theorem c10_insertLeaf_duplicates_after (L : Int) (leaf : LeafNodeInt)
    (e : RIDKeyPair) (c : Nat)
    (hlen1 : leaf.keyArray.length = L.toNat)
    (hlen2 : leaf.ridArray.length = L.toNat)
    (hcL : (c : Int) < L)
    (hocc : ∀ j : Nat, j < c → (arrGet rid0 leaf.ridArray (j : Int)).page_number ≠ 0)
    (hfree : ∀ j : Nat, c ≤ j → j < L.toNat →
      (arrGet rid0 leaf.ridArray (j : Int)).page_number = 0)
    (hsort : ∀ a b : Nat, a ≤ b → b < c →
      arrGet 0 leaf.keyArray (a : Int) ≤ arrGet 0 leaf.keyArray (b : Int))
    (hdup : ∃ j : Nat, j < c ∧ arrGet 0 leaf.keyArray (j : Int) = e.key) :
    InsertLeafDupClaim L leaf e c := by
  obtain ⟨jd, hjd, _⟩ := hdup
  have hc0 : 0 < c := by omega
  have hL0 : (0 : Int) ≤ L := by omega
  have hcLn : c < L.toNat := by omega
  have h0 : (arrGet rid0 leaf.ridArray 0).page_number ≠ 0 := by
    have := hocc 0 hc0
    rwa [Nat.cast_zero] at this
  have hcount : leafCountLoop leaf.ridArray L.toNat (L - 1) = (c : Int) - 1 := by
    rw [leafCountLoop_eq]
    have hfr : ((List.range L.toNat).countP fun (j : Nat) =>
        decide ((arrGet rid0 leaf.ridArray (j : Int)).page_number = 0)) = L.toNat - c := by
      have hsplit : L.toNat = c + (L.toNat - c) := by omega
      rw [hsplit, List.range_add, List.countP_append, List.countP_map]
      have hz : ((List.range c).countP fun (j : Nat) =>
          decide ((arrGet rid0 leaf.ridArray (j : Int)).page_number = 0)) = 0 := by
        rw [List.countP_eq_zero]
        intro a ha
        simpa using hocc a (List.mem_range.mp ha)
      have ho : (List.countP ((fun (j : Nat) =>
            decide ((arrGet rid0 leaf.ridArray (j : Int)).page_number = 0)) ∘
            (fun x => c + x)) (List.range (L.toNat - c))) = L.toNat - c := by
        have h1 : ∀ a ∈ List.range (L.toNat - c),
            ((fun (j : Nat) =>
              decide ((arrGet rid0 leaf.ridArray (j : Int)).page_number = 0)) ∘
              (fun x => c + x)) a = true := by
          intro a ha
          have := hfree (c + a) (by omega) (by have := List.mem_range.mp ha; omega)
          simpa using this
        simpa [List.length_range] using List.countP_eq_length.mpr h1
      rw [hz, ho]
      omega
    rw [hfr]
    omega
  have h1 : ((c : Int) - 1 + 1).toNat = c := by omega
  have hresK : (insertLeaf L leaf e).keyArray =
      arrSet (insLoop e c leaf.keyArray leaf.ridArray ((c : Int) - 1)).1
        ((insLoop e c leaf.keyArray leaf.ridArray ((c : Int) - 1)).2.2 + 1) e.key := by
    unfold insertLeaf
    rw [if_pos h0]
    simp only [hcount, h1]
  have hresR : (insertLeaf L leaf e).ridArray =
      arrSet (insLoop e c leaf.keyArray leaf.ridArray ((c : Int) - 1)).2.1
        ((insLoop e c leaf.keyArray leaf.ridArray ((c : Int) - 1)).2.2 + 1) e.rid := by
    unfold insertLeaf
    rw [if_pos h0]
    simp only [hcount, h1]
  have hsync := insLoop_sync e leaf.keyArray leaf.ridArray c L.toNat hcLn hsort c
    leaf.keyArray leaf.ridArray le_rfl hlen1 hlen2 (fun _ _ => rfl) (fun _ _ => rfl)
  obtain ⟨o1, o2, o3, o4, o5, o6, o7⟩ := hsync
  have htc : ((List.range c).countP fun (j : Nat) =>
      decide (arrGet 0 leaf.keyArray (j : Int) ≤ e.key)) ≤ c :=
    le_trans (List.countP_le_length _) (by simp [List.length_range])
  have hdown := countP_downward c
    (fun (j : Nat) => decide (arrGet 0 leaf.keyArray (j : Int) ≤ e.key))
    (fun a b hab hb hPb => by
      simp only [decide_eq_true_eq] at hPb ⊢
      exact le_trans (hsort a b hab hb) hPb)
  unfold InsertLeafDupClaim insPos
  set t := ((List.range c).countP fun (j : Nat) =>
    decide (arrGet 0 leaf.keyArray (j : Int) ≤ e.key)) with htdef
  have hidx : (insLoop e c leaf.keyArray leaf.ridArray ((c : Int) - 1)).2.2 + 1 = (t : Int) := by
    rw [o1]
    ring
  refine ⟨?_, ?_, ?_, ?_, ?_, ?_⟩
  · rw [hresK, hidx, arrGet_arrSet_self _ _ _ _ (by omega) (by rw [o2]; omega)]
  · rw [hresR, hidx, arrGet_arrSet_self _ _ _ _ (by omega) (by rw [o3]; omega)]
  · intro j hj
    constructor
    · rw [hresK, hidx, arrGet_arrSet_ne _ _ _ _ _ (by omega)]
      exact (o4 j hj).1
    · rw [hresR, hidx, arrGet_arrSet_ne _ _ _ _ _ (by omega)]
      exact (o4 j hj).2
  · intro j hj hjc
    constructor
    · rw [hresK, hidx, arrGet_arrSet_ne _ _ _ _ _ (by omega)]
      exact (o5 j hj hjc).1
    · rw [hresR, hidx, arrGet_arrSet_ne _ _ _ _ _ (by omega)]
      exact (o5 j hj hjc).2
  · intro j hj
    have := hdown.1 j hj
    simpa using this
  · intro j hj hjc
    have := hdown.2 j hj hjc
    simp only [decide_eq_false_iff_not, not_le] at this
    exact this

/-- Witness for C10 at a concrete input: leaf `[5, 5]` (capacity 3, two
live entries), inserting another key 5 lands in slot 2, after both
existing duplicates. -/
theorem c10_insertLeaf_duplicates_after_witness :
    InsertLeafDupClaim 3 ⟨1, [5, 5, 0], [⟨1, 1⟩, ⟨2, 2⟩, ⟨0, 0⟩], 0⟩ ⟨⟨3, 3⟩, 5⟩ 2 :=
  c10_insertLeaf_duplicates_after 3 ⟨1, [5, 5, 0], [⟨1, 1⟩, ⟨2, 2⟩, ⟨0, 0⟩], 0⟩
    ⟨⟨3, 3⟩, 5⟩ 2 (by decide) (by decide) (by decide) (by decide) (by decide)
    (by intro a b hab hb; interval_cases b <;> interval_cases a <;> decide)
    ⟨0, by decide, by decide⟩

theorem arrGet_oob {α : Type} (d : α) (l : List α) (i : Int)
    (h0 : 0 ≤ i) (h : l.length ≤ i.toNat) : arrGet d l i = d := by
  unfold arrGet
  rw [if_pos h0, List.getD_eq_getElem?_getD, List.getElem?_eq_none h]
  rfl

theorem arrGet_arrSet_oob {α : Type} (d : α) (l : List α) (i : Int) (v : α)
    (h0 : 0 ≤ i) (h : l.length ≤ i.toNat) : arrGet d (arrSet l i v) i = d := by
  unfold arrGet arrSet
  rw [if_pos h0, if_pos h0, List.getD_eq_getElem?_getD,
    List.getElem?_eq_none (by simpa using h)]
  rfl

theorem arrGet_arrSet_freeRid (l : List RecordId) (i : Int) :
    (arrGet rid0 (arrSet l i { arrGet rid0 l i with page_number := 0 }) i).page_number = 0 ∧
    (arrGet rid0 (arrSet l i { arrGet rid0 l i with page_number := 0 }) i).slot_number =
      (arrGet rid0 l i).slot_number := by
  by_cases h0 : 0 ≤ i
  · by_cases h : i.toNat < l.length
    · rw [arrGet_arrSet_self _ _ _ _ h0 h]
      exact ⟨rfl, rfl⟩
    · rw [arrGet_arrSet_oob _ _ _ _ h0 (by omega), arrGet_oob _ _ _ h0 (by omega)]
      exact ⟨rfl, rfl⟩
  · rw [arrGet_neg _ _ _ (by omega), arrGet_neg _ _ _ (by omega)]
    exact ⟨rfl, rfl⟩

theorem arrGet_replicate_self {α : Type} (d : α) (n : Nat) (i : Int) :
    arrGet d (List.replicate n d) i = d := by
  unfold arrGet
  split
  · rw [List.getD_eq_getElem?_getD, List.getElem?_replicate]
    split <;> rfl
  · rfl

theorem getNode_writePage_same (s : BTreeState) (p : Int) (n : Node) :
    getNode (writePage s p n) p = n := by
  simp [getNode, writePage, alookup_aset_self]

theorem getNode_writePage_ne (s : BTreeState) (p q : Int) (n : Node) (h : q ≠ p) :
    getNode (writePage s p n) q = getNode s q := by
  simp [getNode, writePage, alookup_aset_ne _ _ _ _ h]

theorem getNode_unPinPage (s : BTreeState) (p q : Int) :
    getNode (unPinPage s p) q = getNode s q := rfl

theorem getLeaf_of_getNode (s : BTreeState) (p : Int) (l : LeafNodeInt)
    (h : getNode s p = .leaf l) : getLeaf s p = l := by
  unfold getLeaf
  rw [h]

theorem getNode_rootUpdater (s : BTreeState) (fp : Int) (ne : PageKeyPair) (q : Int)
    (h : q ≠ s.nextPid) : getNode (rootUpdater s fp ne) q = getNode s q := by
  unfold rootUpdater
  exact getNode_writePage_ne _ _ _ _ h

theorem insertLeaf_frame (L : Int) (x : LeafNodeInt) (e : RIDKeyPair) :
    (insertLeaf L x e).rightSibPageNo = x.rightSibPageNo ∧
    (insertLeaf L x e).level = x.level := by
  unfold insertLeaf
  split
  · exact ⟨rfl, rfl⟩
  · exact ⟨rfl, rfl⟩

theorem slMove_spec (center : Int) (_hc : 0 ≤ center) :
    ∀ (k : Nat) (i : Int), center ≤ i →
      ∀ (oK : List Int) (oR : List RecordId) (nK : List Int) (nR : List RecordId),
        SlMoveOut center (k : Int) i oK oR nK nR (slMove center k i (oK, oR, nK, nR)) := by
  intro k
  induction k with
  | zero =>
    intro i hi oK oR nK nR
    refine ⟨rfl, rfl, rfl, rfl, fun j _ => ⟨rfl, rfl⟩, ?_, fun j _ => ⟨rfl, rfl⟩, ?_⟩
    · intro j hj1 hj2
      simp at hj2
      omega
    · intro j hj1 hj2 _ _
      simp at hj2
      omega
  | succ k ih =>
    intro i hi oK oR nK nR
    have hstep : slMove center (k + 1) i (oK, oR, nK, nR) =
        slMove center k (i + 1)
          (arrSet oK i 0,
           arrSet oR i { arrGet rid0 oR i with page_number := 0 },
           arrSet nK (i - center) (arrGet 0 oK i),
           arrSet nR (i - center) (arrGet rid0 oR i)) := rfl
    have hout := ih (i + 1) (by omega) (arrSet oK i 0)
      (arrSet oR i { arrGet rid0 oR i with page_number := 0 })
      (arrSet nK (i - center) (arrGet 0 oK i))
      (arrSet nR (i - center) (arrGet rid0 oR i))
    obtain ⟨l1, l2, l3, l4, hOout, hOwin, hNout, hNwin⟩ := hout
    rw [hstep]
    have hkc : ((k + 1 : Nat) : Int) = (k : Int) + 1 := by push_cast; ring
    refine ⟨by rw [l1, length_arrSet], by rw [l2, length_arrSet],
      by rw [l3, length_arrSet], by rw [l4, length_arrSet], ?_, ?_, ?_, ?_⟩
    · intro j hj
      rw [hkc] at hj
      have hb := hOout j (by omega)
      refine ⟨?_, ?_⟩
      · rw [hb.1, arrGet_arrSet_ne _ _ _ _ _ (by omega)]
      · rw [hb.2, arrGet_arrSet_ne _ _ _ _ _ (by omega)]
    · intro j hj1 hj2
      rw [hkc] at hj2
      by_cases hji : j = i
      · subst hji
        have hb := hOout j (by omega)
        refine ⟨?_, ?_, ?_⟩
        · rw [hb.1, arrGet_arrSet_default]
        · rw [hb.2]
          exact (arrGet_arrSet_freeRid oR j).1
        · rw [hb.2]
          exact (arrGet_arrSet_freeRid oR j).2
      · have hb := hOwin j (by omega) (by omega)
        refine ⟨hb.1, hb.2.1, ?_⟩
        rw [hb.2.2, arrGet_arrSet_ne _ _ _ _ _ (by omega)]
    · intro j hj
      rw [hkc] at hj
      have hb := hNout j (by omega)
      refine ⟨?_, ?_⟩
      · rw [hb.1, arrGet_arrSet_ne _ _ _ _ _ (by omega)]
      · rw [hb.2, arrGet_arrSet_ne _ _ _ _ _ (by omega)]
    · intro j hj1 hj2 hj3 hj4
      rw [hkc] at hj2
      by_cases hji : j = i - center
      · have hb := hNout j (by omega)
        rw [hji] at hb hj3 hj4 ⊢
        refine ⟨?_, ?_⟩
        · rw [hb.1, arrGet_arrSet_self _ _ _ _ (by omega) (by omega)]
          congr 1
          ring
        · rw [hb.2, arrGet_arrSet_self _ _ _ _ (by omega) (by omega)]
          congr 1
          ring
      · have hb := hNwin j (by omega) (by omega)
          (by rw [length_arrSet]; exact hj3) (by rw [length_arrSet]; exact hj4)
        refine ⟨?_, ?_⟩
        · rw [hb.1, arrGet_arrSet_ne _ _ _ _ _ (by omega)]
        · rw [hb.2, arrGet_arrSet_ne _ _ _ _ _ (by omega)]

/-- C7: `splitLeaf` on a full leaf behaves as the spec describes: the new
right leaf receives the upper half `[m, L)` of the entries in order (with
the midpoint `m` bumped by one when `L` is odd and the incoming key
exceeds `keyArray[L/2]`), the vacated upper slots of the old leaf are
freed, the sibling chain is spliced (old points to new, new points to the
old right sibling), the incoming entry is inserted into the old leaf iff
its key is at most the last remaining key of the old leaf (otherwise into
the new leaf), and the propagated pair is the new page id together with
the new leaf's first key after the insertion. -/
theorem c7_splitLeaf_spec (st : BTreeState) (leaf : LeafNodeInt) (leafPId : Int)
    (e : RIDKeyPair) (hL : 2 ≤ st.leafOccupancy) (hp1 : leafPId ≠ st.nextPid)
    (hp2 : leafPId ≠ st.nextPid + 1) : SplitLeafClaim st leaf leafPId e := by
  have hc0 : 0 ≤ slCenter st leaf e := by
    unfold slCenter
    split <;> omega
  have hcle : slCenter st leaf e ≤ st.leafOccupancy := by
    unfold slCenter
    split <;> omega
  have hmv := slMove_spec (slCenter st leaf e) hc0
    (st.leafOccupancy - slCenter st leaf e).toNat (slCenter st leaf e) le_rfl
    leaf.keyArray leaf.ridArray
    ({ emptyLeafNode st.leafOccupancy with level := 1 } : LeafNodeInt).keyArray
    ({ emptyLeafNode st.leafOccupancy with level := 1 } : LeafNodeInt).ridArray
  obtain ⟨hl1, hl2, hl3, hl4, hout, hwin, hnout, hnwin⟩ := hmv
  have hro : arrGet 0 (slMoved st leaf e).1 (slCenter st leaf e - 1) =
      arrGet 0 leaf.keyArray (slCenter st leaf e - 1) :=
    (hout (slCenter st leaf e - 1) (Or.inl (by omega))).1
  have hm : (if st.leafOccupancy % 2 = 1 ∧
        e.key > arrGet 0 leaf.keyArray (st.leafOccupancy / 2) then
        st.leafOccupancy / 2 + 1 else st.leafOccupancy / 2) = slCenter st leaf e := by
    unfold slCenter
    by_cases h1 : st.leafOccupancy % 2 = 1 <;>
      by_cases h2 : e.key > arrGet 0 leaf.keyArray (st.leafOccupancy / 2) <;>
        simp [h1, h2]
  have hsplit : splitLeaf st leaf leafPId e =
      (if (slSt4 st leaf leafPId e).rootPageNum = leafPId then
          rootUpdater (slSt4 st leaf leafPId e) leafPId (slPair st leaf e)
        else slSt4 st leaf leafPId e,
       slPair st leaf e) := rfl
  have hOld : getLeaf (splitLeaf st leaf leafPId e).1 leafPId = slOldF st leaf e := by
    rw [hsplit]
    dsimp only
    by_cases hroot : (slSt4 st leaf leafPId e).rootPageNum = leafPId
    · rw [if_pos hroot]
      apply getLeaf_of_getNode
      rw [getNode_rootUpdater]
      · unfold slSt4
        rw [getNode_unPinPage, getNode_unPinPage, getNode_writePage_same]
      · show leafPId ≠ st.nextPid + 1
        exact hp2
    · rw [if_neg hroot]
      apply getLeaf_of_getNode
      unfold slSt4
      rw [getNode_unPinPage, getNode_unPinPage, getNode_writePage_same]
  have hNew : getLeaf (splitLeaf st leaf leafPId e).1 st.nextPid = slNewF st leaf e := by
    rw [hsplit]
    dsimp only
    by_cases hroot : (slSt4 st leaf leafPId e).rootPageNum = leafPId
    · rw [if_pos hroot]
      apply getLeaf_of_getNode
      rw [getNode_rootUpdater]
      · unfold slSt4
        rw [getNode_unPinPage, getNode_unPinPage, getNode_writePage_ne,
          getNode_writePage_same]
        exact Ne.symm hp1
      · show st.nextPid ≠ st.nextPid + 1
        omega
    · rw [if_neg hroot]
      apply getLeaf_of_getNode
      unfold slSt4
      rw [getNode_unPinPage, getNode_unPinPage, getNode_writePage_ne,
        getNode_writePage_same]
      exact Ne.symm hp1
  unfold SplitLeafClaim
  refine ⟨?_, ?_, ?_, ?_⟩
  · rw [hNew]
    unfold slNewF
    split
    · exact (insertLeaf_frame st.leafOccupancy (slR st leaf e) e).1
    · rfl
  · rw [hOld]
    unfold slOldF
    split
    · rfl
    · exact (insertLeaf_frame st.leafOccupancy (slX st leaf e) e).1
  · rw [hNew, hsplit]
    rfl
  · refine ⟨slX st leaf e, slR st leaf e, rfl, rfl, rfl, ?_, ?_, ?_, ?_, ?_, ?_⟩
    · rw [hm]
      intro j _ hj
      exact hout j (Or.inl hj)
    · rw [hm]
      intro j h1 h2
      have h3 := hwin j h1 (by omega)
      exact ⟨h3.1, h3.2.1⟩
    · rw [hm]
      intro j h1 h2
      exact hnwin j (by omega) (by omega) (by simp [emptyLeafNode]; omega)
        (by simp [emptyLeafNode]; omega)
    · rw [hm]
      intro j h1 h2
      have h3 := hnout j (Or.inr (by omega))
      exact ⟨h3.1.trans (arrGet_replicate_self 0 st.leafOccupancy.toNat j),
        h3.2.trans (arrGet_replicate_self rid0 st.leafOccupancy.toNat j)⟩
    · rw [hm]
      intro hle
      have hnr : ¬ e.key > arrGet 0 (slMoved st leaf e).1 (slCenter st leaf e - 1) := by
        rw [hro]
        omega
      rw [hOld, hNew]
      unfold slOldF slNewF
      rw [if_neg hnr, if_neg hnr]
      exact ⟨rfl, rfl⟩
    · rw [hm]
      intro hgt
      have hpr : e.key > arrGet 0 (slMoved st leaf e).1 (slCenter st leaf e - 1) := by
        rw [hro]
        exact hgt
      rw [hOld, hNew]
      unfold slOldF slNewF
      rw [if_pos hpr, if_pos hpr]
      exact ⟨rfl, rfl⟩

/-- Closed instance of `c7_splitLeaf_spec`: a capacity-2 index whose full
leaf `[10, 20]` at page 4 is split by the entry with key 30. -/
theorem c7_splitLeaf_spec_witness :
    (2 : Int) ≤ c7wSt.leafOccupancy ∧ SplitLeafClaim c7wSt c7wLeaf 4 ⟨⟨3, 3⟩, 30⟩ :=
  ⟨by decide, c7_splitLeaf_spec c7wSt c7wLeaf 4 ⟨⟨3, 3⟩, 30⟩ (by decide) (by decide)
    (by decide)⟩

theorem pinCountOf_scanFields (s : BTreeState) (a b : Int) (p : Int) :
    pinCountOf { s with nextEntry := a, currentPageNum := b } p = pinCountOf s p := rfl

theorem pinCountOf_nextEntry (s : BTreeState) (a : Int) (p : Int) :
    pinCountOf { s with nextEntry := a } p = pinCountOf s p := rfl

theorem scanNextFinish_valid (s : BTreeState) (curr : LeafNodeInt)
    (h : isKeyValid s.lowValInt s.lowOp s.highValInt s.highOp
      (arrGet 0 curr.keyArray s.nextEntry) = true) :
    scanNextFinish s curr =
      .ok { s with nextEntry := s.nextEntry + 1 } (arrGet rid0 curr.ridArray s.nextEntry) := by
  unfold scanNextFinish
  rw [if_pos h]

theorem scanNextFinish_invalid (s : BTreeState) (curr : LeafNodeInt)
    (h : isKeyValid s.lowValInt s.lowOp s.highValInt s.highOp
      (arrGet 0 curr.keyArray s.nextEntry) = false) :
    scanNextFinish s curr = .err s .indexScanCompleted := by
  unfold scanNextFinish
  rw [if_neg (by rw [h]; simp)]

/-- C8: `scanNext` behaves as claimed on every state: the
`scanNotInitialized` error happens exactly when no scan is active; with a
scan active, a cursor at `leafOccupancy` or on a free slot unpins the
leaf, completing the scan when there is no right sibling and otherwise
pinning the sibling and restarting the cursor at 0; then an out-of-range
key completes the scan and an in-range key is yielded with the cursor
advanced. -/
theorem c8_scanNext_behavior (st : BTreeState) : ScanNextClaim st := by
  unfold ScanNextClaim
  cases hq : st.scanExecuting with
  | false =>
    have hres : scanNext st = .err st .scanNotInitialized := by
      unfold scanNext
      rw [if_pos hq]
    rw [hres]
    constructor
    · simp [OpResult.errorOf, hq]
    · intro hx
      simp at hx
  | true =>
    have hnf : ¬ st.scanExecuting = false := by simp [hq]
    by_cases hend : st.nextEntry = st.leafOccupancy ∨
        (arrGet rid0 (getLeaf st st.currentPageNum).ridArray st.nextEntry).page_number = 0
    · by_cases hsib : (getLeaf st st.currentPageNum).rightSibPageNo = 0
      · have hres : scanNext st = .err (unPinPage st st.currentPageNum) .indexScanCompleted := by
          unfold scanNext
          rw [if_neg hnf, if_pos hend, if_pos hsib]
        rw [hres]
        constructor
        · simp [OpResult.errorOf, hq]
        · intro _
          refine ⟨?_, ?_, ?_⟩
          · intro _ _
            refine ⟨rfl, ?_⟩
            intro p
            simp [OpResult.stateOf, pinCountOf_unPinPage]
          · intro _ hs
            exact absurd hsib hs
          · intro hne
            exact absurd hend hne
      · by_cases hvalid : isKeyValid st.lowValInt st.lowOp st.highValInt st.highOp
            (arrGet 0 (getLeaf st (getLeaf st st.currentPageNum).rightSibPageNo).keyArray 0) = true
        · have hres : scanNext st =
              .ok
                { pinPage
                    { unPinPage st st.currentPageNum with
                      nextEntry := 0,
                      currentPageNum := (getLeaf st st.currentPageNum).rightSibPageNo }
                    (getLeaf st st.currentPageNum).rightSibPageNo with
                  nextEntry := 0 + 1 }
                (arrGet rid0
                  (getLeaf st (getLeaf st st.currentPageNum).rightSibPageNo).ridArray 0) := by
            unfold scanNext
            rw [if_neg hnf, if_pos hend, if_neg hsib, scanNextFinish_valid]
            · rfl
            · exact hvalid
          rw [hres]
          constructor
          · simp [OpResult.errorOf, hq]
          · intro _
            refine ⟨?_, ?_, ?_⟩
            · intro _ hs
              exact absurd hs (by simpa using hsib)
            · intro _ _
              refine ⟨fun _ => ⟨rfl, rfl, rfl, ?_⟩, fun hcontra => ?_⟩
              · intro p
                simp [OpResult.stateOf, pinCountOf_nextEntry, pinCountOf_pinPage,
                  pinCountOf_scanFields, pinCountOf_unPinPage]
                try ring
              · rw [hvalid] at hcontra
                simp at hcontra
            · intro hne
              exact absurd hend hne
        · have hinvalid : isKeyValid st.lowValInt st.lowOp st.highValInt st.highOp
              (arrGet 0 (getLeaf st (getLeaf st st.currentPageNum).rightSibPageNo).keyArray 0) =
                false := by
            cases hv : isKeyValid st.lowValInt st.lowOp st.highValInt st.highOp
                (arrGet 0 (getLeaf st (getLeaf st st.currentPageNum).rightSibPageNo).keyArray 0)
            · rfl
            · exact absurd hv hvalid
          have hres : scanNext st =
              .err
                (pinPage
                  { unPinPage st st.currentPageNum with
                    nextEntry := 0,
                    currentPageNum := (getLeaf st st.currentPageNum).rightSibPageNo }
                  (getLeaf st st.currentPageNum).rightSibPageNo)
                .indexScanCompleted := by
            unfold scanNext
            rw [if_neg hnf, if_pos hend, if_neg hsib, scanNextFinish_invalid]
            exact hinvalid
          rw [hres]
          constructor
          · simp [OpResult.errorOf, hq]
          · intro _
            refine ⟨?_, ?_, ?_⟩
            · intro _ hs
              exact absurd hs (by simpa using hsib)
            · intro _ _
              refine ⟨fun hcontra => ?_, fun _ => ⟨rfl, rfl, rfl, ?_⟩⟩
              · rw [hinvalid] at hcontra
                simp at hcontra
              · intro p
                simp [OpResult.stateOf, pinCountOf_pinPage, pinCountOf_scanFields,
                  pinCountOf_unPinPage]
                try ring
            · intro hne
              exact absurd hend hne
    · by_cases hvalid : isKeyValid st.lowValInt st.lowOp st.highValInt st.highOp
          (arrGet 0 (getLeaf st st.currentPageNum).keyArray st.nextEntry) = true
      · have hres : scanNext st =
            .ok { st with nextEntry := st.nextEntry + 1 }
              (arrGet rid0 (getLeaf st st.currentPageNum).ridArray st.nextEntry) := by
          unfold scanNext
          rw [if_neg hnf, if_neg hend, scanNextFinish_valid]
          exact hvalid
        rw [hres]
        constructor
        · simp [OpResult.errorOf, hq]
        · intro _
          refine ⟨?_, ?_, ?_⟩
          · intro he _
            exact absurd he hend
          · intro he _
            exact absurd he hend
          · intro _
            refine ⟨fun _ => ⟨rfl, rfl, rfl, rfl⟩, fun hcontra => ?_⟩
            rw [hvalid] at hcontra
            simp at hcontra
      · have hinvalid : isKeyValid st.lowValInt st.lowOp st.highValInt st.highOp
            (arrGet 0 (getLeaf st st.currentPageNum).keyArray st.nextEntry) = false := by
          cases hv : isKeyValid st.lowValInt st.lowOp st.highValInt st.highOp
              (arrGet 0 (getLeaf st st.currentPageNum).keyArray st.nextEntry)
          · rfl
          · exact absurd hv hvalid
        have hres : scanNext st = .err st .indexScanCompleted := by
          unfold scanNext
          rw [if_neg hnf, if_neg hend, scanNextFinish_invalid]
          exact hinvalid
        rw [hres]
        constructor
        · simp [OpResult.errorOf, hq]
        · intro _
          refine ⟨?_, ?_, ?_⟩
          · intro he _
            exact absurd he hend
          · intro he _
            exact absurd he hend
          · intro _
            refine ⟨fun hcontra => ?_, fun _ => ⟨rfl, rfl⟩⟩
            rw [hinvalid] at hcontra
            simp at hcontra

/-- Witness for C8 at a concrete input: `scanNext` on an idle index (no
scan active) raises `scanNotInitialized`. -/
theorem c8_scanNext_behavior_witness :
    (scanNext (ctorBase 0 1 2 2)).errorOf = some .scanNotInitialized :=
  (c8_scanNext_behavior (ctorBase 0 1 2 2)).1.mpr (by decide)

/-- C1: after the concrete insert sequence `c1inserts` into the fresh
index `c1init`, the internal-node split has removed the child pointer to
the leaf holding `(20, rid (20, 20))`: that inserted pair is in none of
the leaves reachable from the root (only 4 of the 5 inserted pairs are),
refuting "the multiset of (key, rid) pairs stored in the tree's leaves
equals the multiset of inserted pairs, and each inserted pair is present
in exactly one leaf". -/
theorem c1_internal_split_loses_pair :
    (c1run.map fun st =>
      (reachableLeafPairs st 6 st.rootPageNum).contains (20, 20, 20)) = some false ∧
    c1inserts.contains (20, 20, 20) = true ∧
    (c1run.map fun st => (reachableLeafPairs st 6 st.rootPageNum).length) = some 4 ∧
    c1inserts.length = 5 := by
  refine ⟨by decide, by decide, by decide, by decide⟩

/-- C2: reopening an existing index file whose metadata page stores
attribute byte offset 4 and attribute type 1 while passing offset 8 and
type 2 to the constructor succeeds and loads `rootPageNo = 9`; the
constructor performs no metadata validation and never raises
`badIndexInfo`, contradicting the claim (and the source's own doc comment
for the constructor). -/
theorem c2_constructor_skips_validation :
    exceptRootOf c2result = some 9 ∧
    c2meta.attrByteOffset ≠ 8 ∧ c2meta.attrType ≠ 2 := by
  refine ⟨by decide, by decide, by decide⟩

/-- C4: on an even-capacity internal node the promoted separator follows
the claimed rule (`keyArray[mid-1]` when `sep < keyArray[mid]`, else
`keyArray[mid]`), but when the capacity is odd (the failing input:
`nodeOccupancy = 3`, full node, any separator) the source reads the local
`newParentIndex` without ever assigning it — undefined behaviour, modelled
as `none` — instead of promoting `keyArray[mid]` as the claim states. -/
theorem c4_split_promotion :
    splitNonLeaf c4stOdd c4nodeOdd 7 ⟨6, 25⟩ = none ∧
    (splitNonLeaf c4stEven c4nodeEven 7 ⟨6, 15⟩).map (fun r => r.2.key) = some 20 ∧
    (splitNonLeaf c4stEven c4nodeEven 7 ⟨6, 35⟩).map (fun r => r.2.key) = some 30 := by
  refine ⟨by decide, by decide, by decide⟩

/-- C6: pin discipline violations on `c6scanSt` (an index with an active
scan pinning leaf page 2, cursor past the last live slot).  The
destructor merely clears `scanExecuting` and leaves the leaf pinned
(missing unpin), and `scanNext` completing the scan unpins the leaf while
leaving the scan marked active, so the `endScan` that follows unpins the
same page a second time (`badUnpin`). -/
theorem c6_pin_discipline_broken :
    pinCountOf c6scanSt 2 = 1 ∧
    c6scanSt.badUnpin = false ∧
    (btreeDestructor c6scanSt).scanExecuting = false ∧
    pinCountOf (btreeDestructor c6scanSt) 2 = 1 ∧
    (scanNext c6scanSt).errorOf = some .indexScanCompleted ∧
    (scanNext c6scanSt).stateOf.scanExecuting = true ∧
    pinCountOf (scanNext c6scanSt).stateOf 2 = 0 ∧
    (endScan (scanNext c6scanSt).stateOf).stateOf.badUnpin = true := by
  refine ⟨by decide, by decide, by decide, by decide, by decide, by decide, by decide, by decide⟩

/-- C3 counterexample: on the node with live children `[7, 8]` and
separator key 5, a descent with key 5 (equal to the separator) returns
`pageNoArray[0] = 7`, the separator's left child, whereas the claim's
rule — the largest `i` with `keyArray[i-1] ≤ 5`, with equal keys going
right — demands `pageNoArray[1] = 8`. -/
theorem c3_equal_key_goes_left :
    findNextNonLeaf 2 c3node 5 = 7 ∧
    claimedChildIx c3node 2 5 = 1 ∧
    arrGet 0 c3node.pageNoArray 1 = 8 ∧
    findNextNonLeaf 2 c3node 5 ≠
      arrGet 0 c3node.pageNoArray (claimedChildIx c3node 2 5) := by
  refine ⟨by decide, by decide, by decide, by decide⟩

/-- C5: `c5state` is the index produced by inserting keys 1, 2, 3 into a
fresh index of capacities 3/3 — a single, completely full root leaf with
no right sibling — and on it `startScan(10, GTE, 20, LTE)` (a valid
operator pair and a valid range, with every stored key below the range)
never terminates: the inner loop can only leave a leaf through `isNull`,
which is never set on a full leaf, so the outer loop re-scans the same
leaf for every amount of fuel instead of raising `noSuchKeyFound`. -/
theorem c5_startScan_diverges :
    runInserts 10 (newIndexState 4 1 3 3) [(1, 1, 1), (2, 2, 2), (3, 3, 3)] = some c5state ∧
    ∀ fuel : Nat, startScan c5state 10 20 .GTE .LTE fuel = none := by
  refine ⟨by decide, ?_⟩
  have hstep : ∀ n : Nat, leafLoop c5mid (n + 1) = leafLoop c5mid n := fun _ => rfl
  have hnone : ∀ n : Nat, leafLoop c5mid n = none := by
    intro n
    induction n with
    | zero => rfl
    | succ m ih => rw [hstep]; exact ih
  intro fuel
  show leafLoop c5mid fuel = none
  exact hnone fuel

theorem leafLoop_no_badScanrange (fuel : Nat) : ∀ st : BTreeState,
    ¬ raisesBadScanrange (leafLoop st fuel) := by
  induction fuel with
  | zero =>
      intro st h
      exact h
  | succ n ih =>
      intro st h
      simp only [leafLoop] at h
      by_cases h0 : (arrGet rid0 (getLeaf st st.currentPageNum).ridArray 0).page_number = 0
      · rw [if_pos h0] at h
        exact IndexError.noConfusion h
      · rw [if_neg h0] at h
        rcases hio : innerFor st (getLeaf st st.currentPageNum) st.leafOccupancy.toNat 0 false
          with ⟨st', out⟩
        rw [hio] at h
        cases out with
        | found => exact h
        | nsk => exact IndexError.noConfusion h
        | hopped => exact ih st' h
        | fellThrough => exact ih st' h

/-- C9 amended: both validations of `startScan` do happen before any page
is pinned and before a running scan is ended — a failed validation
returns with the pins, `scanExecuting`, cursor and operator fields
untouched — but the scan bounds `lowValInt`/`highValInt` are overwritten
with the new parameters before validation, so the state is exactly the
input state with clobbered bounds.  With valid operators the call raises
`badScanrange` iff `highVal < lowVal`: the third conjunct's converse
direction shows no later phase of `startScan` (ending a running scan,
descent, leaf search) can produce that error. -/
theorem c9_validation_order (st : BTreeState) (lv hv : Int) (lop hop : Operator)
    (fuel : Nat) :
    ((lop ≠ .GT ∧ lop ≠ .GTE) ∨ (hop ≠ .LT ∧ hop ≠ .LTE) →
      startScan st lv hv lop hop fuel =
        some (.err { st with lowValInt := lv, highValInt := hv } .badOpcodes)) ∧
    (¬((lop ≠ .GT ∧ lop ≠ .GTE) ∨ (hop ≠ .LT ∧ hop ≠ .LTE)) → hv < lv →
      startScan st lv hv lop hop fuel =
        some (.err { st with lowValInt := lv, highValInt := hv } .badScanrange)) ∧
    (¬((lop ≠ .GT ∧ lop ≠ .GTE) ∨ (hop ≠ .LT ∧ hop ≠ .LTE)) →
      (raisesBadScanrange (startScan st lv hv lop hop fuel) ↔ hv < lv)) := by
  have h2 : ¬((lop ≠ .GT ∧ lop ≠ .GTE) ∨ (hop ≠ .LT ∧ hop ≠ .LTE)) → hv < lv →
      startScan st lv hv lop hop fuel =
        some (.err { st with lowValInt := lv, highValInt := hv } .badScanrange) := by
    intro h hlt
    simp only [startScan]
    rw [if_neg h,
      if_pos (show ({ st with lowValInt := lv, highValInt := hv } : BTreeState).highValInt <
        ({ st with lowValInt := lv, highValInt := hv } : BTreeState).lowValInt from hlt)]
  have tail : ∀ s : BTreeState,
      ¬ raisesBadScanrange
        (if nodeLevel (getNode s s.currentPageNum) = 1 then leafLoop s fuel
         else
           match descendAux s fuel with
           | none => none
           | some s2 => leafLoop s2 fuel) := by
    intro s
    split
    · exact leafLoop_no_badScanrange fuel s
    · cases descendAux s fuel with
      | none =>
          intro hr
          exact hr
      | some s2 => exact leafLoop_no_badScanrange fuel s2
  refine ⟨?_, h2, ?_⟩
  · intro h
    simp only [startScan]
    rw [if_pos h]
  · intro hops
    constructor
    · intro hr
      by_cases hlt : hv < lv
      · exact hlt
      · exfalso
        simp only [startScan] at hr
        rw [if_neg hops,
          if_neg (show ¬ ({ st with lowValInt := lv, highValInt := hv } :
              BTreeState).highValInt <
            ({ st with lowValInt := lv, highValInt := hv } : BTreeState).lowValInt
            from hlt)] at hr
        exact tail _ hr
    · intro hlt
      rw [h2 hops hlt]
      exact rfl

/-- Witness for C9's amended theorem at concrete inputs: `LT` as the low
operator fails validation with `badOpcodes` and only the stored bounds
change; with valid operators, range `[5, 2]` raises `badScanrange` and
range `[1, 2]` does not. -/
theorem c9_validation_order_witness :
    (startScan c9wSt 1 2 .LT .LT 5 =
      some (.err { c9wSt with lowValInt := 1, highValInt := 2 } .badOpcodes)) ∧
    (startScan c9wSt 5 2 .GTE .LTE 5 =
      some (.err { c9wSt with lowValInt := 5, highValInt := 2 } .badScanrange)) ∧
    (raisesBadScanrange (startScan c9wSt 1 2 .GTE .LTE 5) ↔ (2 : Int) < 1) :=
  ⟨(c9_validation_order c9wSt 1 2 .LT .LT 5).1 (by decide),
   (c9_validation_order c9wSt 5 2 .GTE .LTE 5).2.1 (by decide) (by decide),
   (c9_validation_order c9wSt 1 2 .GTE .LTE 5).2.2 (by decide)⟩

/-- C9 counterexample: on an index with an active scan (`scanExecuting`,
range `[0, 100]`), a `startScan` call that fails operator validation
(`highOp = GT`) raises `badOpcodes` but has already overwritten the
stored scan bounds (`lowValInt` becomes 60), so the previously active
scan is not left untouched. -/
theorem c9_failed_validation_clobbers_range :
    startScan c9preState 60 100 .GTE .GT 10 = some (.err c9afterBad .badOpcodes) ∧
    c9preState.scanExecuting = true ∧
    c9afterBad.lowValInt ≠ c9preState.lowValInt := by
  refine ⟨by decide, by decide, by decide⟩

end BadgerBTree
